import Mathlib

set_option autoImplicit false

namespace CMU15445

/-!
Shallow embedding of the storage-and-recovery core of the repository
(a BusTub-style teaching DBMS).  Every definition is translated from the
C++ source file named in its doc comment; machine integers appear as
`Nat`/`Int`, page bytes as abstract values, and the buffer-pool / hash-table
state as explicit records.  Pages are kept resident as values, so a C++
pointer to a page is modelled by the page id it refers to.
-/

/-- Association-list update: replaces the value bound to key `k` (models
`map[k] = v` for a key already present in an `std::unordered_map`). -/
def alistSet {κ α : Type} [DecidableEq κ] (l : List (κ × α)) (k : κ) (a : α) :
    List (κ × α) :=
  l.map (fun p => if p.1 = k then (k, a) else p)

/-- Association-list insertion-or-update (models `map[k] = v`). -/
def alistPut {κ α : Type} [DecidableEq κ] (l : List (κ × α)) (k : κ) (a : α) :
    List (κ × α) :=
  if (l.find? (fun p => decide (p.1 = k))).isSome then alistSet l k a else l ++ [(k, a)]

/-- Association-list erase (models `map.erase(k)`). -/
def alistErase {κ α : Type} [DecidableEq κ] (l : List (κ × α)) (k : κ) :
    List (κ × α) :=
  l.filter (fun p => decide (p.1 ≠ k))

/-- Association-list lookup (models `map.find(k)`). -/
def alistFind {κ α : Type} [DecidableEq κ] : List (κ × α) → κ → Option α
  | [], _ => none
  | p :: rest, k => if p.1 = k then some p.2 else alistFind rest k

/-!  ## Clock replacer — src/buffer/clock_replacer.cpp  -/

/-- State of the clock replacer (src/buffer/clock_replacer.cpp:19-23).
Each frame carries the pair `(contains, ref)`.  The C++ `clock_hand_`
starts at `-1` and every step first advances it; we store
`hand = clock_hand_ + 1`, the position the next step will visit, so the
field stays a natural number. -/
structure ClockReplacer where
  frames : List (Bool × Bool)
  hand : Nat
deriving DecidableEq

/-- `ClockReplacer::ClockReplacer(num_pages)` (clock_replacer.cpp:19-23). -/
def ClockReplacer.init (numPages : Nat) : ClockReplacer :=
  { frames := List.replicate numPages (false, false), hand := 0 }

/-- `ClockReplacer::Size` (clock_replacer.cpp:65-72): number of contained
frames. -/
def ClockReplacer.size (r : ClockReplacer) : Nat :=
  r.frames.countP (fun fr => fr.1)

/-- The `while (true)` loop of `ClockReplacer::Victim`
(clock_replacer.cpp:34-46), with explicit fuel.  Returns the selected
frame, the updated frame list and the updated (shifted) hand.  The C++
loop is unbounded but, as proved below, fuel `2 * frames.length` always
suffices when some frame is contained. -/
def victimLoop : Nat → List (Bool × Bool) → Nat → Option (Nat × List (Bool × Bool) × Nat)
  | 0, _, _ => none
  | fuel + 1, frames, hand =>
    let p := hand % frames.length
    match frames[p]? with
    | some (true, true) => victimLoop fuel (frames.set p (true, false)) (p + 1)
    | some (true, false) => some (p, frames.set p (false, false), p + 1)
    | _ => victimLoop fuel frames (p + 1)

/-- `ClockReplacer::Victim` (clock_replacer.cpp:27-47): returns `none` when
no frame is contained, otherwise runs the clock sweep. -/
def ClockReplacer.victim (r : ClockReplacer) : Option (Nat × ClockReplacer) :=
  if r.size = 0 then none
  else
    match victimLoop (2 * r.frames.length) r.frames r.hand with
    | some (f, frames2, hand2) => some (f, { frames := frames2, hand := hand2 })
    | none => none

/-- `ClockReplacer::Pin` (clock_replacer.cpp:49-55). -/
def ClockReplacer.pin (r : ClockReplacer) (f : Nat) : ClockReplacer :=
  { r with frames := r.frames.set f (false, false) }

/-- `ClockReplacer::Unpin` (clock_replacer.cpp:57-63). -/
def ClockReplacer.unpin (r : ClockReplacer) (f : Nat) : ClockReplacer :=
  { r with frames := r.frames.set f (true, true) }

/-!  ## Hash table block page — src/storage/page/hash_table_block_page.cpp  -/

/-- A hash-table block page (src/storage/page/hash_table_block_page.cpp):
two parallel bitmaps `occupied_`/`readable_` plus the slot array `array_`,
all of length `BLOCK_ARRAY_SIZE` (written `bas` throughout). -/
structure BlockPage (K V : Type) where
  occupied : List Bool
  readable : List Bool
  slots : List (K × V)
deriving DecidableEq

variable {K V : Type} [DecidableEq K] [DecidableEq V] [Inhabited K] [Inhabited V]

/-- A freshly zeroed block page of capacity `bas` (a new page's frame is
zeroed by `NewPage`, so both bitmaps start all-false). -/
def BlockPage.reset (K V : Type) [Inhabited K] [Inhabited V] (bas : Nat) : BlockPage K V :=
  { occupied := List.replicate bas false
    readable := List.replicate bas false
    slots := List.replicate bas (default, default) }

/-- `HashTableBlockPage::IsOccupied` (hash_table_block_page.cpp:46-49). -/
def BlockPage.isOccupied (bp : BlockPage K V) (i : Nat) : Bool :=
  bp.occupied.getD i false

/-- `HashTableBlockPage::IsReadable` (hash_table_block_page.cpp:51-54). -/
def BlockPage.isReadable (bp : BlockPage K V) (i : Nat) : Bool :=
  bp.readable.getD i false

/-- `HashTableBlockPage::KeyAt` (hash_table_block_page.cpp:19-22). -/
def BlockPage.keyAt (bp : BlockPage K V) (i : Nat) : K :=
  (bp.slots.getD i (default, default)).1

/-- `HashTableBlockPage::ValueAt` (hash_table_block_page.cpp:24-27). -/
def BlockPage.valueAt (bp : BlockPage K V) (i : Nat) : V :=
  (bp.slots.getD i (default, default)).2

/-- `HashTableBlockPage::Insert` (hash_table_block_page.cpp:29-39): fails on
a readable slot, otherwise stores the pair and sets both bits.  Returns the
updated page and the success flag. -/
def BlockPage.insert (bp : BlockPage K V) (i : Nat) (k : K) (v : V) :
    BlockPage K V × Bool :=
  if bp.isReadable i then (bp, false)
  else
    ({ occupied := bp.occupied.set i true
       readable := bp.readable.set i true
       slots := bp.slots.set i (k, v) }, true)

/-- `HashTableBlockPage::Remove` (hash_table_block_page.cpp:41-44): clears
only the readable bit. -/
def BlockPage.remove (bp : BlockPage K V) (i : Nat) : BlockPage K V :=
  { bp with readable := bp.readable.set i false }

/-- The readable (key, value) entries of a block page, in bucket order. -/
def BlockPage.entries (bas : Nat) (bp : BlockPage K V) : List (K × V) :=
  (List.range bas).filterMap
    (fun i => if bp.isReadable i then some (bp.keyAt i, bp.valueAt i) else none)

/-- The readable (key, value) entries of block page `bp` at the slot
indices `is` — the generalisation of `BlockPage.entries` that `Resize`'s
inner migration loop walks (`BlockPage.entries bas bp` is
`slotEntries bp (List.range bas)`). -/
def slotEntries (bp : BlockPage K V) (is : List Nat) : List (K × V) :=
  is.filterMap
    (fun i => if bp.isReadable i then some (bp.keyAt i, bp.valueAt i) else none)

/-!  ## Linear probe hash table — src/container/hash/linear_probe_hash_table.cpp

The table owns a header page (list of block-page ids) and the block pages,
all held by page id; `num_buckets` is the constructor argument stored in the
member of the same name, which `Resize` never updates.  `BLOCK_ARRAY_SIZE`
(the per-block slot count, a compile-time constant defined in a header that
is not part of src/) is the parameter `bas`, and the key hash
`hash_fn_.GetHash` is the parameter `hash`.  Pages are modelled as always
resident; a C++ page pointer is the page id it was fetched for, and —
exactly as in the source, where `StepForward` receives the caller's
`raw_block_page`/`block_page` pointers by value and its reassignment of
them (linear_probe_hash_table.cpp:295-301) never reaches the caller — the
probing loops below keep reading and writing the block page first fetched
(`ptr`) even after the block index has moved on. -/

/-- State of `LinearProbeHashTable` plus the pages it owns. -/
structure LinearProbeHashTable (K V : Type) where
  numBuckets : Nat
  headerPageId : Nat
  headers : List (Nat × List Nat)
  blocks : List (Nat × BlockPage K V)
  nextPageId : Nat
deriving DecidableEq

/-- Block pages with consecutive fresh ids starting at `startId`, as
allocated by `InitHeaderPage` (linear_probe_hash_table.cpp:251-262). -/
def freshBlocks (K V : Type) [Inhabited K] [Inhabited V] (bas startId count : Nat) :
    List (Nat × BlockPage K V) :=
  (List.range count).map (fun i => (startId + i, BlockPage.reset K V bas))

/-- The block-page id vector of the current header page
(`header_page->GetBlockPageId`, `NumBlocks`). -/
def LinearProbeHashTable.headerBlocks (ts : LinearProbeHashTable K V) : List Nat :=
  (alistFind ts.headers ts.headerPageId).getD []

/-- Fetch the block page with page id `id`. -/
def LinearProbeHashTable.getBlock (ts : LinearProbeHashTable K V) (bas id : Nat) :
    BlockPage K V :=
  (alistFind ts.blocks id).getD (BlockPage.reset K V bas)

/-- Write back the block page with page id `id`. -/
def LinearProbeHashTable.setBlock (ts : LinearProbeHashTable K V) (id : Nat)
    (bp : BlockPage K V) : LinearProbeHashTable K V :=
  { ts with blocks := alistSet ts.blocks id bp }

/-- `BufferPoolManager::DeletePage` applied to a block page of the table. -/
def LinearProbeHashTable.deleteBlock (ts : LinearProbeHashTable K V) (id : Nat) :
    LinearProbeHashTable K V :=
  { ts with blocks := alistErase ts.blocks id }

/-- The constructor `LinearProbeHashTable::LinearProbeHashTable`
(linear_probe_hash_table.cpp:26-42): a fresh pool hands out page ids from 0,
so the header page gets id 0 and `InitHeaderPage` allocates block pages
1..numBuckets. -/
def mkTable (K V : Type) [Inhabited K] [Inhabited V] (bas numBuckets : Nat) :
    LinearProbeHashTable K V :=
  { numBuckets := numBuckets
    headerPageId := 0
    headers := [(0, (List.range numBuckets).map (fun i => i + 1))]
    blocks := freshBlocks K V bas 1 numBuckets
    nextPageId := numBuckets + 1 }

/-- `LinearProbeHashTable::GetIndex` (linear_probe_hash_table.cpp:264-270),
verbatim: `slot = hash(key) % (BLOCK_ARRAY_SIZE * num_buckets)`,
`block = slot / BLOCK_ARRAY_SIZE`, and — as written in the source at line
268 — `bucket = block % BLOCK_ARRAY_SIZE`. -/
def htGetIndex (bas : Nat) (hash : K → Nat) (ts : LinearProbeHashTable K V)
    (k : K) : Nat × Nat × Nat :=
  let slot := hash k % (bas * ts.numBuckets)
  let block := slot / bas
  let bucket := block % bas
  (slot, block, bucket)

/-- The starting bucket the specification prescribes
(`bucket = slot mod slots_per_block`); stated from the spec's words, to be
compared with `htGetIndex` which is translated from the source. -/
def specStartBucket (bas : Nat) (hash : K → Nat) (ts : LinearProbeHashTable K V)
    (k : K) : Nat :=
  hash k % (bas * ts.numBuckets) % bas

/-- `IsMatch` is declared in the table's header file, which is not under
src/.  Modelled from the spec: a bucket matches when it "holds a matching
key+value" — key compares equal under the comparator and the value is
equal. -/
def isMatch (bp : BlockPage K V) (i : Nat) (k : K) (v : V) : Bool :=
  decide (bp.keyAt i = k) && decide (bp.valueAt i = v)

/-- Result of one run of the probing loop of `Insert`
(linear_probe_hash_table.cpp:104-134).  The loop performs no write until it
either claims a free (non-readable) slot, finds a readable exact duplicate,
or returns to the starting slot and triggers a resize. -/
inductive ProbeResult where
  | claimed (bucket : Nat)
  | dup (bucket : Nat)
  | toResize
  | fuelOut
deriving DecidableEq

/-- The probing loop of `Insert` (linear_probe_hash_table.cpp:104-134) with
explicit fuel.  `bp` is the block page the caller's stale pointer refers
to: every `Insert`/`IsMatch` call inside the loop reads it, while the
indices `blockIdx`/`bucket` advance per `StepForward`
(linear_probe_hash_table.cpp:272-302) and the loop stops to resize when
`blockIdx * bas + bucket` returns to `slot`
(linear_probe_hash_table.cpp:115). -/
def insertProbe (bas numBlocks slot : Nat) (bp : BlockPage K V) (k : K) (v : V) :
    Nat → Nat → Nat → ProbeResult
  | 0, _, _ => ProbeResult.fuelOut
  | fuel + 1, blockIdx, bucket =>
    if bp.isReadable bucket then
      if isMatch bp bucket k v then ProbeResult.dup bucket
      else
        let bucket1 := bucket + 1
        let next := if bucket1 = bas then ((blockIdx + 1) % numBlocks, 0)
                    else (blockIdx, bucket1)
        if next.1 * bas + next.2 = slot then ProbeResult.toResize
        else insertProbe bas numBlocks slot bp k v fuel next.1 next.2
    else ProbeResult.claimed bucket

/-- Fuel that always suffices for one probing loop: the loop revisits the
starting slot after at most `numBlocks * bas + bas` steps. -/
def probeFuel (bas numBlocks : Nat) : Nat :=
  numBlocks * bas + bas + 2

mutual

/-- `LinearProbeHashTable::Insert` (linear_probe_hash_table.cpp:86-142).
Returns the new table, the success flag, and the number of resizes
triggered on the way (0 when the probe finished directly); `none` means the
step-count fuel ran out.  On `claimed` the pair is written through the
stale pointer `ptr` — the block page fetched for the starting block
index — at the claimed bucket. -/
def htInsert (bas : Nat) (hash : K → Nat) :
    Nat → LinearProbeHashTable K V → K → V →
    Option (LinearProbeHashTable K V × Bool × Nat)
  | 0, _, _, _ => none
  | fuel + 1, ts, k, v =>
    let idx := htGetIndex bas hash ts k
    let hdr := ts.headerBlocks
    let ptr := hdr.getD idx.2.1 0
    let bp := ts.getBlock bas ptr
    match insertProbe bas hdr.length idx.1 bp k v (probeFuel bas hdr.length) idx.2.1 idx.2.2 with
    | ProbeResult.claimed b => some (ts.setBlock ptr (bp.insert b k v).1, true, 0)
    | ProbeResult.dup _ => some (ts, false, 0)
    | ProbeResult.fuelOut => none
    | ProbeResult.toResize =>
      match htResize bas hash fuel ts (hdr.length * bas) with
      | none => none
      | some (ts2, c) =>
        match htInsert bas hash fuel ts2 k v with
        | none => none
        | some (ts3, ok, c2) => some (ts3, ok, c + c2 + 1)


/-- `LinearProbeHashTable::Resize` (linear_probe_hash_table.cpp:191-231):
allocate a new header page (which becomes `header_page_id_`) and
`2 * initial_size / BLOCK_ARRAY_SIZE` fresh block pages, re-insert every
readable slot of each old block through `Insert`, deleting each old block
page after its slots are migrated, and finally delete the old header page.
The second component counts the resizes triggered by the re-insertions. -/
def htResize (bas : Nat) (hash : K → Nat) :
    Nat → LinearProbeHashTable K V → Nat →
    Option (LinearProbeHashTable K V × Nat)
  | 0, _, _ => none
  | fuel + 1, ts, initialSize =>
    let oldHeaderId := ts.headerPageId
    let oldBlocks := ts.headerBlocks
    let newHeaderId := ts.nextPageId
    let nb := 2 * initialSize / bas
    let newBlockIds := (List.range nb).map (fun i => newHeaderId + 1 + i)
    let ts1 : LinearProbeHashTable K V :=
      { ts with headerPageId := newHeaderId
                headers := ts.headers ++ [(newHeaderId, newBlockIds)]
                blocks := ts.blocks ++ freshBlocks K V bas (newHeaderId + 1) nb
                nextPageId := newHeaderId + 1 + nb }
    match reinsertBlocks bas hash fuel ts1 oldBlocks with
    | none => none
    | some (ts2, c) =>
      some ({ ts2 with headers := alistErase ts2.headers oldHeaderId }, c)

/-- The outer migration loop of `Resize`
(linear_probe_hash_table.cpp:207-223): for each old block page, re-insert
its readable slots, then delete the page. -/
def reinsertBlocks (bas : Nat) (hash : K → Nat) :
    Nat → LinearProbeHashTable K V → List Nat →
    Option (LinearProbeHashTable K V × Nat)
  | 0, _, _ => none
  | _ + 1, ts, [] => some (ts, 0)
  | fuel + 1, ts, id :: rest =>
    let bp := ts.getBlock bas id
    match reinsertSlots bas hash fuel ts bp (List.range bas) with
    | none => none
    | some (ts1, c1) =>
      match reinsertBlocks bas hash fuel (ts1.deleteBlock id) rest with
      | none => none
      | some (ts2, c2) => some (ts2, c1 + c2)

/-- The inner migration loop of `Resize`
(linear_probe_hash_table.cpp:213-217): re-insert each readable slot of the
old block page `bp`. -/
def reinsertSlots (bas : Nat) (hash : K → Nat) :
    Nat → LinearProbeHashTable K V → BlockPage K V → List Nat →
    Option (LinearProbeHashTable K V × Nat)
  | 0, _, _, _ => none
  | _ + 1, ts, _, [] => some (ts, 0)
  | fuel + 1, ts, bp, i :: rest =>
    if bp.isReadable i then
      match htInsert bas hash fuel ts (bp.keyAt i) (bp.valueAt i) with
      | none => none
      | some (ts1, _, c1) =>
        match reinsertSlots bas hash fuel ts1 bp rest with
        | none => none
        | some (ts2, c2) => some (ts2, c1 + c2)
    else reinsertSlots bas hash fuel ts bp rest

end

/-- `LinearProbeHashTable::GetSize` (linear_probe_hash_table.cpp:233-249):
`NumBlocks() * BLOCK_ARRAY_SIZE`. -/
def htGetSize (bas : Nat) (ts : LinearProbeHashTable K V) : Nat :=
  ts.headerBlocks.length * bas

/-- The readable entries of the table, in header block order then bucket
order (the multiset of entries the spec speaks about). -/
def htEntries (bas : Nat) (ts : LinearProbeHashTable K V) : List (K × V) :=
  (ts.headerBlocks.map (fun id => BlockPage.entries bas (ts.getBlock bas id))).flatten

/-- The probing loop of `Remove` (linear_probe_hash_table.cpp:161-181) with
explicit fuel, reading the stale block-page pointer `bp` throughout:
`some (some b)` means a readable match was removed at bucket `b`,
`some none` means the loop ended without removing (unoccupied bucket,
unreadable match, or full sweep), `none` means fuel ran out. -/
def removeProbe (bas numBlocks slot : Nat) (bp : BlockPage K V) (k : K) (v : V) :
    Nat → Nat → Nat → Option (Option Nat)
  | 0, _, _ => none
  | fuel + 1, blockIdx, bucket =>
    if bp.isOccupied bucket then
      if isMatch bp bucket k v then
        some (if bp.isReadable bucket then some bucket else none)
      else
        let bucket1 := bucket + 1
        let next := if bucket1 = bas then ((blockIdx + 1) % numBlocks, 0)
                    else (blockIdx, bucket1)
        if next.1 * bas + next.2 = slot then some none
        else removeProbe bas numBlocks slot bp k v fuel next.1 next.2
    else some none

/-- `LinearProbeHashTable::Remove` (linear_probe_hash_table.cpp:144-189). -/
def htRemove (bas : Nat) (hash : K → Nat) (ts : LinearProbeHashTable K V)
    (k : K) (v : V) : Option (LinearProbeHashTable K V × Bool) :=
  let idx := htGetIndex bas hash ts k
  let hdr := ts.headerBlocks
  let ptr := hdr.getD idx.2.1 0
  let bp := ts.getBlock bas ptr
  match removeProbe bas hdr.length idx.1 bp k v (probeFuel bas hdr.length) idx.2.1 idx.2.2 with
  | none => none
  | some none => some (ts, false)
  | some (some b) => some (ts.setBlock ptr (bp.remove b), true)

/-!  ## Buffer pool manager — src/buffer/buffer_pool_manager.cpp

Page bytes are abstracted to a single `Nat` payload plus the page-LSN
stored in the page header; the disk stores the `(lsn, data)` pair per page
slot.  Pin counts are `Int` since `pin_count_` is a C++ `int`. -/

def INVALID_PAGE_ID : Int := -1

/-- An in-pool page frame (the `Page` objects of the `pages_` array).
`page.h` is not under src/; the fields and their defaults are modelled from
the spec: page-id `INVALID`, pin count 0, non-dirty, zeroed data (so the
stored page-LSN reads as 0). -/
structure Page where
  pageId : Int
  pinCount : Int
  dirty : Bool
  lsn : Int
  data : Nat
deriving DecidableEq

/-- A default-constructed `Page`. -/
def Page.init : Page :=
  { pageId := INVALID_PAGE_ID, pinCount := 0, dirty := false, lsn := 0, data := 0 }

/-- The disk manager's data file (page-id slot → stored (lsn, data)), the
monotone page-id allocator, and the ids passed to `DeallocatePage`.
Reading a never-written slot yields zeroed bytes. -/
structure DiskManager where
  store : List (Int × (Int × Nat))
  nextPageId : Int
  deallocated : List Int
deriving DecidableEq

/-- A fresh disk manager over an empty data file. -/
def DiskManager.init : DiskManager :=
  { store := [], nextPageId := 0, deallocated := [] }

/-- `DiskManager::ReadPage`. -/
def DiskManager.readPage (d : DiskManager) (pid : Int) : Int × Nat :=
  (alistFind d.store pid).getD (0, 0)

/-- `DiskManager::WritePage`. -/
def DiskManager.writePage (d : DiskManager) (pid : Int) (v : Int × Nat) : DiskManager :=
  { d with store := alistPut d.store pid v }

/-- `DiskManager::AllocatePage`: monotone, no reuse. -/
def DiskManager.allocatePage (d : DiskManager) : Int × DiskManager :=
  (d.nextPageId, { d with nextPageId := d.nextPageId + 1 })

/-- `DiskManager::DeallocatePage`: records the deallocation; the data file
is not touched. -/
def DiskManager.deallocatePage (d : DiskManager) (pid : Int) : DiskManager :=
  { d with deallocated := d.deallocated ++ [pid] }

/-- The log manager as the buffer pool sees it (src/recovery/log_manager.cpp):
`next_lsn_` and `persistent_lsn_`.  `next_lsn_` starts at 0 and
`persistent_lsn_` at `INVALID_LSN = -1`. -/
structure LogManager where
  nextLsn : Int
  persistentLsn : Int
deriving DecidableEq

/-- A fresh log manager. -/
def LogManager.init : LogManager :=
  { nextLsn := 0, persistentLsn := -1 }

/-- Net effect of `LogManager::Flush` (log_manager.cpp:124-135): the flush
thread writes the buffered records and runs
`SetPersistentLSN(next_lsn_ - 1)` (log_manager.cpp:42). -/
def LogManager.flush (lm : LogManager) : LogManager :=
  { lm with persistentLsn := lm.nextLsn - 1 }

/-- LSN assignment of `LogManager::AppendLogRecord`
(log_manager.cpp:81): `log_record->lsn_ = next_lsn_++`. -/
def LogManager.appendLogRecord (lm : LogManager) : Int × LogManager :=
  (lm.nextLsn, { lm with nextLsn := lm.nextLsn + 1 })

/-- `BufferPoolManager` state (buffer_pool_manager.cpp:20-30). -/
structure BufferPoolManager where
  poolSize : Nat
  pages : List Page
  pageTable : List (Int × Nat)
  freeList : List Nat
  replacer : ClockReplacer
deriving DecidableEq

/-- The constructor `BufferPoolManager::BufferPoolManager`
(buffer_pool_manager.cpp:20-30): every frame starts in the free list. -/
def BufferPoolManager.init (poolSize : Nat) : BufferPoolManager :=
  { poolSize := poolSize
    pages := List.replicate poolSize Page.init
    pageTable := []
    freeList := List.range poolSize
    replacer := ClockReplacer.init poolSize }

/-- The whole storage state an operation touches: pool, disk, log manager,
and the process-wide `enable_logging` flag. -/
structure DbState where
  bp : BufferPoolManager
  disk : DiskManager
  lm : LogManager
  enableLogging : Bool
deriving DecidableEq

/-- Observable side effects of a buffer pool operation: a data-file page
write (with the page id passed to `DiskManager::WritePage`, the written
page's LSN and data, and the log's persistent-LSN at the moment of the
write), and a call to `LogManager::Flush`. -/
inductive BpEvent where
  | wrote (pid : Int) (pageLsn : Int) (data : Nat) (persistentAtWrite : Int)
  | flushedLog
deriving DecidableEq

/-- `BufferPoolManager::GetVictimFrameId` (buffer_pool_manager.cpp:184-205):
free list first, else clock victim; on the victim path, when logging is
enabled and the victim is dirty with page-LSN above the persistent-LSN,
call the log manager's flush. -/
def getVictimFrameId (st : DbState) : Option Nat × DbState × List BpEvent :=
  match st.bp.freeList with
  | f :: rest => (some f, { st with bp := { st.bp with freeList := rest } }, [])
  | [] =>
    match st.bp.replacer.victim with
    | none => (none, st, [])
    | some (f, rep2) =>
      let st1 : DbState := { st with bp := { st.bp with replacer := rep2 } }
      if st1.enableLogging then
        let page := st1.bp.pages.getD f Page.init
        if page.dirty && decide (page.lsn > st1.lm.persistentLsn) then
          (some f, { st1 with lm := st1.lm.flush }, [BpEvent.flushedLog])
        else (some f, st1, [])
      else (some f, st1, [])

/-- `BufferPoolManager::FetchPageImpl` (buffer_pool_manager.cpp:37-74).
Returns the frame id the page was pinned into. -/
def fetchPage (st : DbState) (pid : Int) : Option Nat × DbState × List BpEvent :=
  match alistFind st.bp.pageTable pid with
  | some f =>
    let page := st.bp.pages.getD f Page.init
    let page1 := { page with pinCount := page.pinCount + 1 }
    let rep1 := if page.pinCount = 0 then st.bp.replacer.pin f else st.bp.replacer
    (some f,
     { st with bp := { st.bp with pages := st.bp.pages.set f page1, replacer := rep1 } },
     [])
  | none =>
    match getVictimFrameId st with
    | (none, st1, evs) => (none, st1, evs)
    | (some f, st1, evs) =>
      let page := st1.bp.pages.getD f Page.init
      let hit := page.dirty
      let disk2 := if hit then st1.disk.writePage page.pageId (page.lsn, page.data) else st1.disk
      let evs2 := if hit then
          evs ++ [BpEvent.wrote page.pageId page.lsn page.data st1.lm.persistentLsn]
        else evs
      let pt2 := alistPut (alistErase st1.bp.pageTable page.pageId) pid f
      let rd := disk2.readPage pid
      let page2 : Page := { pageId := pid, pinCount := 1, dirty := false, lsn := rd.1, data := rd.2 }
      (some f,
       { st1 with disk := disk2
                  bp := { st1.bp with pages := st1.bp.pages.set f page2
                                      pageTable := pt2
                                      replacer := st1.bp.replacer.pin f } },
       evs2)

/-- `BufferPoolManager::UnpinPageImpl` (buffer_pool_manager.cpp:76-95). -/
def unpinPage (st : DbState) (pid : Int) (isDirty : Bool) : Bool × DbState :=
  match alistFind st.bp.pageTable pid with
  | none => (false, st)
  | some f =>
    let page := st.bp.pages.getD f Page.init
    if page.pinCount ≤ 0 then (false, st)
    else
      let page1 := { page with dirty := page.dirty || isDirty, pinCount := page.pinCount - 1 }
      let rep1 := if page1.pinCount = 0 then st.bp.replacer.unpin f else st.bp.replacer
      (true,
       { st with bp := { st.bp with pages := st.bp.pages.set f page1, replacer := rep1 } })

/-- `BufferPoolManager::FlushPageImpl` (buffer_pool_manager.cpp:97-113):
writes the page when dirty and clears the dirty flag; it never consults the
log manager. -/
def flushPage (st : DbState) (pid : Int) : Bool × DbState × List BpEvent :=
  match alistFind st.bp.pageTable pid with
  | none => (false, st, [])
  | some f =>
    let page := st.bp.pages.getD f Page.init
    if page.dirty then
      (true,
       { st with disk := st.disk.writePage pid (page.lsn, page.data)
                 bp := { st.bp with pages := st.bp.pages.set f { page with dirty := false } } },
       [BpEvent.wrote pid page.lsn page.data st.lm.persistentLsn])
    else (true, st, [])

/-- `BufferPoolManager::NewPageImpl` (buffer_pool_manager.cpp:115-145).
Returns the allocated page id and the frame it was installed into. -/
def newPage (st : DbState) : Option (Int × Nat) × DbState × List BpEvent :=
  if st.bp.freeList.isEmpty && decide (st.bp.replacer.size = 0) then (none, st, [])
  else
    match getVictimFrameId st with
    | (none, st1, evs) => (none, st1, evs)
    | (some f, st1, evs) =>
      let page := st1.bp.pages.getD f Page.init
      let hit := page.dirty
      let disk2 := if hit then st1.disk.writePage page.pageId (page.lsn, page.data) else st1.disk
      let evs2 := if hit then
          evs ++ [BpEvent.wrote page.pageId page.lsn page.data st1.lm.persistentLsn]
        else evs
      let al := disk2.allocatePage
      let pt2 := alistPut (alistErase st1.bp.pageTable page.pageId) al.1 f
      let page2 : Page := { pageId := al.1, pinCount := 1, dirty := true, lsn := 0, data := 0 }
      (some (al.1, f),
       { st1 with disk := al.2
                  bp := { st1.bp with pages := st1.bp.pages.set f page2, pageTable := pt2 } },
       evs2)

/-- `BufferPoolManager::DeletePageImpl` (buffer_pool_manager.cpp:147-170):
a non-resident page yields true; a pinned page yields false; otherwise the
page id is deallocated, the mapping removed, the frame reset
(`page.update(INVALID_PAGE_ID, 0, false, true)`) and appended to the free
list — the page bytes are never written to the data file. -/
def deletePage (st : DbState) (pid : Int) : Bool × DbState × List BpEvent :=
  match alistFind st.bp.pageTable pid with
  | none => (true, st, [])
  | some f =>
    let page := st.bp.pages.getD f Page.init
    if page.pinCount > 0 then (false, st, [])
    else
      (true,
       { st with disk := st.disk.deallocatePage pid
                 bp := { st.bp with pages := st.bp.pages.set f Page.init
                                    pageTable := alistErase st.bp.pageTable pid
                                    freeList := st.bp.freeList ++ [f] } },
       [])

/-- `BufferPoolManager::FlushAllPagesImpl` (buffer_pool_manager.cpp:172-182).
For every frame `i` holding a valid dirty page the source calls
`disk_manager_->WritePage(i, page.data_)` — the FRAME INDEX `i`, not
`page.page_id_`, is passed as the disk page id (line 178). -/
def flushAllPages (st : DbState) : DbState × List BpEvent :=
  let step := fun (acc : List Page × DiskManager × List BpEvent) (i : Nat) =>
    let page := acc.1.getD i Page.init
    if decide (page.pageId ≠ INVALID_PAGE_ID) && page.dirty then
      (acc.1.set i { page with dirty := false },
       acc.2.1.writePage (Int.ofNat i) (page.lsn, page.data),
       acc.2.2 ++ [BpEvent.wrote (Int.ofNat i) page.lsn page.data st.lm.persistentLsn])
    else acc
  let r := (List.range st.bp.poolSize).foldl step (st.bp.pages, st.disk, [])
  ({ st with bp := { st.bp with pages := r.1 }, disk := r.2.1 }, r.2.2)

/-- A caller's `memcpy` into a pinned page's data area (how the tests and
the table heap put bytes into `page->GetData()`); not a buffer pool
method. -/
def writePageData (st : DbState) (pid : Int) (d : Nat) : DbState :=
  match alistFind st.bp.pageTable pid with
  | none => st
  | some f =>
    let page := st.bp.pages.getD f Page.init
    { st with bp := { st.bp with pages := st.bp.pages.set f { page with data := d } } }

/-- Modelled from the spec: a mutator appends a log record (which assigns
the next LSN) and stamps that LSN onto the pinned page it dirties
("mutations first emit a log record through the log manager, which returns
an LSN stamped onto the dirtied page").  `page.h` with `SetLSN` is not
under src/. -/
def appendAndStamp (st : DbState) (pid : Int) (d : Nat) : DbState :=
  let al := st.lm.appendLogRecord
  match alistFind st.bp.pageTable pid with
  | none => { st with lm := al.2 }
  | some f =>
    let page := st.bp.pages.getD f Page.init
    { st with lm := al.2
              bp := { st.bp with pages := st.bp.pages.set f { page with data := d, lsn := al.1 } } }

/-- A fresh storage state: new pool, empty disk, fresh log manager. -/
def DbState.init (poolSize : Nat) (enableLogging : Bool) : DbState :=
  { bp := BufferPoolManager.init poolSize
    disk := DiskManager.init
    lm := LogManager.init
    enableLogging := enableLogging }

/-- Destroying the pool and constructing a new one over the same disk
manager (the destructor, buffer_pool_manager.cpp:32-35, frees memory and
flushes nothing). -/
def DbState.restart (st : DbState) (poolSize : Nat) : DbState :=
  { st with bp := BufferPoolManager.init poolSize }

/-- The data payload of the resident copy of page `pid` (what a caller
reads through the pointer returned by `FetchPage`); 0 when not resident. -/
def residentData (st : DbState) (pid : Int) : Nat :=
  match alistFind st.bp.pageTable pid with
  | none => 0
  | some f => (st.bp.pages.getD f Page.init).data

/-!  ## Log recovery — src/recovery/log_recovery.cpp

The fetched log buffer is a list of bytes (`Nat` values < 256 in intended
use); 32-bit fields are decoded little-endian with two's complement. -/

/-- Little-endian unsigned 32-bit read at `pos` (bytes past the end of the
list read as 0, as the C++ `memcpy` from the fixed-size buffer reads
whatever is there — we model the unwritten tail as zeroed). -/
def readU32 (buf : List Nat) (pos : Nat) : Nat :=
  buf.getD pos 0 % 256 + 256 * (buf.getD (pos + 1) 0 % 256)
    + 65536 * (buf.getD (pos + 2) 0 % 256) + 16777216 * (buf.getD (pos + 3) 0 % 256)

/-- Two's-complement reading of a 32-bit value. -/
def toI32 (n : Nat) : Int :=
  if n < 2147483648 then (n : Int) else (n : Int) - 4294967296

/-- Little-endian signed 32-bit read. -/
def readI32 (buf : List Nat) (pos : Nat) : Int :=
  toI32 (readU32 buf pos)

/-- The log record kinds.  The enum itself lives in a header that is not
under src/; the kinds are the ones the spec lists (§3), plus the invalid
tag the source's `default:` branch rejects. -/
inductive LogRecType where
  | invalid | begin | commit | abort | insert
  | markdelete | applydelete | rollbackdelete | update | newpage
deriving DecidableEq

/-- Modelled from the spec: the numeric tags of the record kinds are not
fixed by src/ (the enum is in a missing header); we number the kinds in the
order the spec lists them, with 0 the invalid tag and every value ≥ 10
invalid.  The claims below do not depend on the particular numbering, only
on the valid tags being finitely many. -/
def decodeType (n : Nat) : LogRecType :=
  if n = 1 then LogRecType.begin
  else if n = 2 then LogRecType.commit
  else if n = 3 then LogRecType.abort
  else if n = 4 then LogRecType.insert
  else if n = 5 then LogRecType.markdelete
  else if n = 6 then LogRecType.applydelete
  else if n = 7 then LogRecType.rollbackdelete
  else if n = 8 then LogRecType.update
  else if n = 9 then LogRecType.newpage
  else LogRecType.invalid

/-- A deserialized log record: the fixed header
`(size, lsn, txn_id, prev_lsn, kind)` plus the kind-specific body.  The
C++ `LogRecord` keeps one rid/tuple member per kind; since the kinds are
disjoint we keep a single `rid`, the first tuple in `tup1` (insert tuple,
delete tuple, or the update's old tuple) and the update's new tuple in
`tup2`. -/
structure LogRecord where
  size : Int
  lsn : Int
  txnId : Int
  prevLsn : Int
  rtype : LogRecType
  rid : Int × Int
  tup1 : List Nat
  tup2 : List Nat
  prevPageId : Int
  pageId : Int
deriving DecidableEq

/-- Modelled from the spec: `Tuple::DeserializeFrom` (not under src/) reads
a 32-bit length prefix and then that many bytes. -/
def readTuple (buf : List Nat) (pos : Nat) : List Nat :=
  (List.range (readU32 buf pos)).map (fun i => buf.getD (pos + 4 + i) 0)

/-- `LogRecovery::DeserializeLogRecord` (log_recovery.cpp:23-74) reading at
offset `pos` of the fetched buffer `buf` (whose length plays
`LOG_BUFFER_SIZE`).  Fails — returns `none` — when the header's `size` is
non-positive, when the record would extend beyond the buffer
(log_recovery.cpp:26), or when the kind is not one the switch recognizes
(the `default:` branch, log_recovery.cpp:69-70). -/
def deserializeLogRecord (buf : List Nat) (pos : Nat) : Option LogRecord :=
  let size := readI32 buf pos
  if size ≤ 0 ∨ (pos : Int) + size > (buf.length : Int) then none
  else
    let base : LogRecord :=
      { size := size, lsn := readI32 buf (pos + 4), txnId := readI32 buf (pos + 8)
        prevLsn := readI32 buf (pos + 12), rtype := decodeType (readU32 buf (pos + 16))
        rid := (0, 0), tup1 := [], tup2 := [], prevPageId := 0, pageId := 0 }
    match base.rtype with
    | LogRecType.insert =>
      some { base with rid := (readI32 buf (pos + 20), readI32 buf (pos + 24))
                       tup1 := readTuple buf (pos + 28) }
    | LogRecType.markdelete =>
      some { base with rid := (readI32 buf (pos + 20), readI32 buf (pos + 24))
                       tup1 := readTuple buf (pos + 28) }
    | LogRecType.applydelete =>
      some { base with rid := (readI32 buf (pos + 20), readI32 buf (pos + 24))
                       tup1 := readTuple buf (pos + 28) }
    | LogRecType.rollbackdelete =>
      some { base with rid := (readI32 buf (pos + 20), readI32 buf (pos + 24))
                       tup1 := readTuple buf (pos + 28) }
    | LogRecType.update =>
      let old := readTuple buf (pos + 28)
      some { base with rid := (readI32 buf (pos + 20), readI32 buf (pos + 24))
                       tup1 := old
                       tup2 := readTuple buf (pos + 28 + 4 + old.length) }
    | LogRecType.newpage =>
      some { base with prevPageId := readI32 buf (pos + 20), pageId := readI32 buf (pos + 24) }
    | LogRecType.begin => some base
    | LogRecType.commit => some base
    | LogRecType.abort => some base
    | LogRecType.invalid => none

/-- The table-page mutations redo can replay.  `table_page.h` is not under
src/; modelled from the spec. -/
inductive RedoMut where
  | insertTuple (rid : Int × Int) (tup : List Nat)
  | updateTuple (rid : Int × Int) (newTup : List Nat)
  | markDelete (rid : Int × Int)
  | applyDelete (rid : Int × Int)
  | rollbackDelete (rid : Int × Int)
  | initPage (pid : Int) (prev : Int)
deriving DecidableEq

/-- Modelled from the spec: a table page (`table_page.h` is not under src/)
is its header fields — page id, page-LSN, prev/next page ids — plus the
journal of mutations applied to its slots.  Recovery runs with logging
disabled, so a replayed mutation appends to the journal without changing
the page-LSN (`TablePage` stamps the LSN only when it appends its own log
records, which needs `enable_logging`). -/
structure TablePageM where
  pageId : Int
  lsn : Int
  prevPageId : Int
  nextPageId : Int
  muts : List RedoMut
deriving DecidableEq

/-- A page fetched for the first time during redo reads zeroed bytes from
disk (page-LSN 0, no mutations). -/
def TablePageM.fresh (pid : Int) : TablePageM :=
  { pageId := pid, lsn := 0, prevPageId := -1, nextPageId := -1, muts := [] }

/-- Redo-visible recovery state: the table pages (by page id), the
active-transaction table and the lsn-to-offset mapping
(log_recovery.h members `active_txn_`, `lsn_mapping_`). -/
structure RecoveryState where
  pages : List (Int × TablePageM)
  activeTxn : List (Int × Int)
  lsnMapping : List (Int × Int)
deriving DecidableEq

/-- `getTablePage` — fetch the table page with id `pid` (a miss reads the
zeroed slot from disk). -/
def getTablePage (st : RecoveryState) (pid : Int) : TablePageM :=
  (alistFind st.pages pid).getD (TablePageM.fresh pid)

/-- `TablePage::Init` as replayed for NEWPAGE (log_recovery.cpp:157);
modelled from the spec: it re-initializes the header, setting the previous
page id from the record and the next page id to `INVALID_PAGE_ID`. -/
def TablePageM.initPage (p : TablePageM) (pid prev : Int) : TablePageM :=
  { p with prevPageId := prev, nextPageId := -1
           muts := p.muts ++ [RedoMut.initPage pid prev] }

/-- One iteration of the redo loop body (log_recovery.cpp:90-177) on an
already-deserialized record: record `lsn_mapping[lsn] = offsetPos`, set
`active_txn[txn_id] = lsn`, then dispatch on the kind — mutating records
replay on the affected page exactly when `page.GetLSN() < record.lsn` and
unpin it with `dirty = (page.GetLSN() < record.lsn)` re-evaluated after the
replay; COMMIT/ABORT erase the transaction.  Returns the new state and the
`(page_id, is_dirty)` arguments of the `UnpinPage` calls made, in order. -/
def redoRecord (st : RecoveryState) (rec : LogRecord) (offsetPos : Int) :
    RecoveryState × List (Int × Bool) :=
  let st1 : RecoveryState :=
    { st with lsnMapping := alistPut st.lsnMapping rec.lsn offsetPos
              activeTxn := alistPut st.activeTxn rec.txnId rec.lsn }
  match rec.rtype with
  | LogRecType.insert =>
    let pid := rec.rid.1
    let page := getTablePage st1 pid
    let page1 := if page.lsn < rec.lsn then
        { page with muts := page.muts ++ [RedoMut.insertTuple rec.rid rec.tup1] }
      else page
    ({ st1 with pages := alistPut st1.pages pid page1 },
     [(pid, decide (page1.lsn < rec.lsn))])
  | LogRecType.update =>
    let pid := rec.rid.1
    let page := getTablePage st1 pid
    let page1 := if page.lsn < rec.lsn then
        { page with muts := page.muts ++ [RedoMut.updateTuple rec.rid rec.tup2] }
      else page
    ({ st1 with pages := alistPut st1.pages pid page1 },
     [(pid, decide (page1.lsn < rec.lsn))])
  | LogRecType.markdelete =>
    let pid := rec.rid.1
    let page := getTablePage st1 pid
    let page1 := if page.lsn < rec.lsn then
        { page with muts := page.muts ++ [RedoMut.markDelete rec.rid] }
      else page
    ({ st1 with pages := alistPut st1.pages pid page1 },
     [(pid, decide (page1.lsn < rec.lsn))])
  | LogRecType.applydelete =>
    let pid := rec.rid.1
    let page := getTablePage st1 pid
    let page1 := if page.lsn < rec.lsn then
        { page with muts := page.muts ++ [RedoMut.applyDelete rec.rid] }
      else page
    ({ st1 with pages := alistPut st1.pages pid page1 },
     [(pid, decide (page1.lsn < rec.lsn))])
  | LogRecType.rollbackdelete =>
    let pid := rec.rid.1
    let page := getTablePage st1 pid
    let page1 := if page.lsn < rec.lsn then
        { page with muts := page.muts ++ [RedoMut.rollbackDelete rec.rid] }
      else page
    ({ st1 with pages := alistPut st1.pages pid page1 },
     [(pid, decide (page1.lsn < rec.lsn))])
  | LogRecType.commit =>
    ({ st1 with activeTxn := alistErase st1.activeTxn rec.txnId }, [])
  | LogRecType.abort =>
    ({ st1 with activeTxn := alistErase st1.activeTxn rec.txnId }, [])
  | LogRecType.newpage =>
    let pid := rec.pageId
    let page := getTablePage st1 pid
    if page.lsn < rec.lsn then
      let page1 := page.initPage pid rec.prevPageId
      let st2 : RecoveryState := { st1 with pages := alistPut st1.pages pid page1 }
      if rec.prevPageId ≠ -1 then
        let prevPage := getTablePage st2 rec.prevPageId
        if prevPage.nextPageId ≠ pid then
          let st3 : RecoveryState :=
            { st2 with pages := alistPut st2.pages rec.prevPageId
                         { prevPage with nextPageId := pid } }
          (st3, [(rec.prevPageId, true), (pid, decide (page1.lsn < rec.lsn))])
        else (st2, [(rec.prevPageId, false), (pid, decide (page1.lsn < rec.lsn))])
      else (st2, [(pid, decide (page1.lsn < rec.lsn))])
    else ({ st1 with pages := alistPut st1.pages pid page },
          [(pid, decide (page.lsn < rec.lsn))])
  | LogRecType.begin => (st1, [])
  | LogRecType.invalid => (st1, [])

/-!  ## Derived notions and concrete scenarios used by the theorems  -/

/-- Block-page operations (the mutators of
src/storage/page/hash_table_block_page.cpp). -/
inductive BlockOp (K V : Type) where
  | ins (i : Nat) (k : K) (v : V)
  | rem (i : Nat)
deriving DecidableEq

/-- Apply one block-page operation. -/
def applyBlockOp (bp : BlockPage K V) : BlockOp K V → BlockPage K V
  | BlockOp.ins i k v => (bp.insert i k v).1
  | BlockOp.rem i => bp.remove i

/-- Run a sequence of block-page operations from a freshly reset page. -/
def runBlockOps (bas : Nat) (ops : List (BlockOp K V)) : BlockPage K V :=
  ops.foldl applyBlockOp (BlockPage.reset K V bas)

/-- The record kinds redo replays physically (log_recovery.cpp:100-177,
the INSERT/UPDATE/MARKDELETE/APPLYDELETE/ROLLBACKDELETE/NEWPAGE cases). -/
def LogRecord.isMutation (rec : LogRecord) : Bool :=
  match rec.rtype with
  | LogRecType.insert => true
  | LogRecType.update => true
  | LogRecType.markdelete => true
  | LogRecType.applydelete => true
  | LogRecType.rollbackdelete => true
  | LogRecType.newpage => true
  | _ => false

/-- The page a mutating record is replayed on: the rid's page id, or the
NEWPAGE record's page id. -/
def LogRecord.affectedPage (rec : LogRecord) : Int :=
  match rec.rtype with
  | LogRecType.newpage => rec.pageId
  | _ => rec.rid.1

/-- The table-page mutation a mutating record replays (meaningful only when
`isMutation`). -/
def LogRecord.redoMutOf (rec : LogRecord) : RedoMut :=
  match rec.rtype with
  | LogRecType.insert => RedoMut.insertTuple rec.rid rec.tup1
  | LogRecType.update => RedoMut.updateTuple rec.rid rec.tup2
  | LogRecType.markdelete => RedoMut.markDelete rec.rid
  | LogRecType.applydelete => RedoMut.applyDelete rec.rid
  | LogRecType.rollbackdelete => RedoMut.rollbackDelete rec.rid
  | LogRecType.newpage => RedoMut.initPage rec.pageId rec.prevPageId
  | _ => RedoMut.markDelete rec.rid

/-- Every disk write in the event list happened with the log's
persistent-LSN at least the written page's LSN (the WAL ordering of §5). -/
def walOrdered (evs : List BpEvent) : Prop :=
  ∀ e ∈ evs, match e with
    | BpEvent.wrote _ pageLsn _ persistentAtWrite => pageLsn ≤ persistentAtWrite
    | BpEvent.flushedLog => True

/-- Persist-and-restart scenario (spec §8 scenario 2, with pool size 1 so
that page 1 ends up in frame 0): `new_page` → page 0, write 42, unpin
dirty. -/
def c2Step1 : DbState := (newPage (DbState.init 1 false)).2.1

/-- ... data 42 written into page 0, unpinned dirty. -/
def c2Step2 : DbState := (unpinPage (writePageData c2Step1 0 42) 0 true).2

/-- ... second `new_page` → page 1 (evicting page 0 into disk slot 0). -/
def c2Step3 : DbState := (newPage c2Step2).2.1

/-- ... data 99 written into page 1, unpinned dirty. -/
def c2Step4 : DbState := (unpinPage (writePageData c2Step3 1 99) 1 true).2

/-- ... then `flush_all_pages`. -/
def c2Final : DbState := (flushAllPages c2Step4).1

/-- ... then the pool is destroyed and reconstructed over the same disk. -/
def c2Restarted : DbState := c2Final.restart 1

/-- Logging-enabled pool with one page: `new_page` → page 0. -/
def c3Step1 : DbState := (newPage (DbState.init 1 true)).2.1

/-- ... a mutator appends a log record (LSN 0) and stamps it onto page 0,
which is unpinned dirty; the log has not been flushed, so
`persistent_lsn = -1 < 0 = page-LSN`. -/
def c3Step2 : DbState := (unpinPage (appendAndStamp c3Step1 0 5) 0 true).2

/-- A constant hash function (admissible for `HashFunction`): every key
probes from slot 0. -/
def hashZero : Nat → Nat := fun _ => 0

/-- Unwrap an insert result (total on the concrete runs below, which all
succeed within the given fuel). -/
def tableOfI (r : Option (LinearProbeHashTable Nat Nat × Bool × Nat)) :
    LinearProbeHashTable Nat Nat :=
  match r with
  | some x => x.1
  | none => mkTable Nat Nat 2 1

/-- Unwrap a remove result. -/
def tableOfR (r : Option (LinearProbeHashTable Nat Nat × Bool)) :
    LinearProbeHashTable Nat Nat :=
  match r with
  | some x => x.1
  | none => mkTable Nat Nat 2 1

/-- Table with one block of two slots (`bas = 2`, one bucket) after
`insert(1,1)`. -/
def c4T1 : LinearProbeHashTable Nat Nat :=
  tableOfI (htInsert 2 hashZero 10 (mkTable Nat Nat 2 1) 1 1)

/-- ... after `insert(2,2)`. -/
def c4T2 : LinearProbeHashTable Nat Nat := tableOfI (htInsert 2 hashZero 10 c4T1 2 2)

/-- ... after `remove(1,1)` — bucket 0 is now a tombstone while (2,2) is
readable at bucket 1. -/
def c4T3 : LinearProbeHashTable Nat Nat := tableOfR (htRemove 2 hashZero c4T2 1 1)

/-- ... after a second `insert(2,2)`, which claims the tombstone and
returns true even though (2,2) is already readable: the table now holds the
exact pair twice. -/
def c4T4 : LinearProbeHashTable Nat Nat := tableOfI (htInsert 2 hashZero 10 c4T3 2 2)

/-- The table after `Resize` of the duplicate-holding table `c4T4`. -/
def c5After : LinearProbeHashTable Nat Nat :=
  match htResize 2 hashZero 20 c4T4 (htGetSize 2 c4T4) with
  | some x => x.1
  | none => mkTable Nat Nat 2 1

/-- A fetched log buffer holding one 20-byte record whose header is
well-sized and in bounds but whose kind tag is 1000 — not a valid record
type under any 10-kind numbering. -/
def c9BadBuf : List Nat :=
  [20, 0, 0, 0, 1, 0, 0, 0, 2, 0, 0, 0, 3, 0, 0, 0, 232, 3, 0, 0]

/-- A fetched log buffer holding one valid 20-byte COMMIT record
(lsn 5, txn 7, prev-lsn -1). -/
def c9GoodBuf : List Nat :=
  [20, 0, 0, 0, 5, 0, 0, 0, 7, 0, 0, 0, 255, 255, 255, 255, 2, 0, 0, 0]

/-- Pool of two frames holding page 0 with data 7, unpinned dirty (used to
exercise `DeletePage` on a resident, unpinned, dirty page). -/
def c10State : DbState :=
  (unpinPage (writePageData ((newPage (DbState.init 2 false)).2.1) 0 7) 0 true).2

/-- A concrete INSERT log record (lsn 4, txn 2, rid (3, 0)). -/
def c6Record : LogRecord :=
  { size := 33, lsn := 4, txnId := 2, prevLsn := 1, rtype := LogRecType.insert
    rid := (3, 0), tup1 := [65], tup2 := [], prevPageId := 0, pageId := 0 }

/-- A concrete COMMIT log record for txn 2. -/
def c6Commit : LogRecord :=
  { size := 20, lsn := 5, txnId := 2, prevLsn := 4, rtype := LogRecType.commit
    rid := (0, 0), tup1 := [], tup2 := [], prevPageId := 0, pageId := 0 }

/-- The block page's three parallel arrays all have the block capacity
(`BLOCK_ARRAY_SIZE` = `bas`), as the fixed C++ layout guarantees. -/
def blockLenWf (bas : Nat) (bp : BlockPage K V) : Prop :=
  bp.occupied.length = bas ∧ bp.readable.length = bas ∧ bp.slots.length = bas

/-- Every slot's occupied bit agrees with its readable bit (no
tombstones). -/
def noTombstone (bp : BlockPage K V) : Prop :=
  ∀ i, bp.occupied.getD i false = bp.readable.getD i false

/-- Structural well-formedness of a table state: every block page the
header lists is present in the page store, and every stored block page has
the fixed layout. -/
def tableWf (bas : Nat) (ts : LinearProbeHashTable K V) : Prop :=
  (∀ id ∈ ts.headerBlocks, (alistFind ts.blocks id).isSome) ∧
  (∀ p ∈ ts.blocks, blockLenWf bas p.2)

/-- Invariant of the intermediate states of `Resize`'s migration loop: the
current header is the new header page `hdrId` listing `newIds`, the
`num_buckets` member and the allocator are untouched, and every new block
page is present, well-laid-out and tombstone-free. -/
def migInv (bas : Nat) (hdrId : Nat) (newIds : List Nat) (numB npid : Nat)
    (tsm : LinearProbeHashTable K V) : Prop :=
  tsm.headerPageId = hdrId ∧
  alistFind tsm.headers hdrId = some newIds ∧
  tsm.numBuckets = numB ∧
  tsm.nextPageId = npid ∧
  (∀ id ∈ newIds, ∃ bp, alistFind tsm.blocks id = some bp ∧
    blockLenWf bas bp ∧ noTombstone bp)

/-!  ## Helper lemmas  -/

theorem getD_set_self {α : Type} (l : List α) (i : Nat) (a d : α) :
    (l.set i a).getD i d = if i < l.length then a else d := by
  rcases Nat.lt_or_ge i l.length with h | h
  · rw [List.getD_eq_getElem?_getD, List.getElem?_set_self h]
    simp [h]
  · rw [List.getD_eq_getElem?_getD]
    have h2 : (l.set i a).length ≤ i := by simpa using h
    rw [List.getElem?_eq_none h2]
    simp [Nat.not_lt.mpr h]

theorem getD_set_ne {α : Type} (l : List α) {i j : Nat} (a d : α) (h : i ≠ j) :
    (l.set i a).getD j d = l.getD j d := by
  rw [List.getD_eq_getElem?_getD, List.getD_eq_getElem?_getD, List.getElem?_set_ne h]

theorem getD_replicate {α : Type} (n i : Nat) (a d : α) :
    (List.replicate n a).getD i d = if i < n then a else d := by
  rcases Nat.lt_or_ge i n with h | h
  · rw [List.getD_eq_getElem?_getD, List.getElem?_replicate_of_lt h]
    simp [h]
  · rw [List.getD_eq_getElem?_getD, List.getElem?_eq_none (by simpa using h)]
    simp [Nat.not_lt.mpr h]

theorem getD_mem {α : Type} (l : List α) (i : Nat) (d : α) (h : i < l.length) :
    l.getD i d ∈ l := by
  rw [List.getD_eq_getElem?_getD, List.getElem?_eq_getElem h]
  exact List.getElem_mem h

theorem alistFind_eq_some_mem {κ α : Type} [DecidableEq κ] {l : List (κ × α)} {k : κ}
    {a : α} (h : alistFind l k = some a) : (k, a) ∈ l := by
  induction l with
  | nil => simp [alistFind] at h
  | cons p rest ih =>
    by_cases hp : p.1 = k
    · rw [alistFind, if_pos hp] at h
      exact List.mem_cons.mpr (Or.inl (Prod.ext_iff.mpr ⟨hp.symm, (Option.some.inj h).symm⟩))
    · rw [alistFind, if_neg hp] at h
      exact List.mem_cons.mpr (Or.inr (ih h))

theorem alistFind_append {κ α : Type} [DecidableEq κ] (l1 l2 : List (κ × α)) (k : κ) :
    alistFind (l1 ++ l2) k =
      match alistFind l1 k with
      | some a => some a
      | none => alistFind l2 k := by
  induction l1 with
  | nil => simp [alistFind]
  | cons p rest ih =>
    by_cases hp : p.1 = k
    · simp [alistFind, hp]
    · simpa [alistFind, hp] using ih

theorem alistFind_isSome_iff_find? {κ α : Type} [DecidableEq κ] (l : List (κ × α)) (k : κ) :
    (alistFind l k).isSome = (l.find? (fun p => decide (p.1 = k))).isSome := by
  induction l with
  | nil => simp [alistFind]
  | cons p rest ih =>
    by_cases hp : p.1 = k
    · rw [alistFind, if_pos hp]
      simp [List.find?_cons, hp]
    · rw [alistFind, if_neg hp]
      simpa [List.find?_cons, hp] using ih

theorem alistSet_of_find_none {κ α : Type} [DecidableEq κ] {l : List (κ × α)} {k : κ}
    (a : α) (h : alistFind l k = none) : alistSet l k a = l := by
  induction l with
  | nil => rfl
  | cons p rest ih =>
    by_cases hp : p.1 = k
    · rw [alistFind, if_pos hp] at h
      simp at h
    · rw [alistFind, if_neg hp] at h
      simp only [alistSet, List.map_cons, if_neg hp]
      rw [show List.map (fun p => if p.1 = k then (k, a) else p) rest = alistSet rest k a from rfl,
        ih h]

theorem alistFind_alistSet_self {κ α : Type} [DecidableEq κ] (l : List (κ × α))
    (k : κ) (a : α) (h : (alistFind l k).isSome) :
    alistFind (alistSet l k a) k = some a := by
  induction l with
  | nil => simp [alistFind] at h
  | cons p rest ih =>
    by_cases hp : p.1 = k
    · simp only [alistSet, List.map_cons, if_pos hp]
      simp [alistFind]
    · rw [alistFind, if_neg hp] at h
      simp only [alistSet, List.map_cons, if_neg hp]
      rw [alistFind, if_neg hp]
      exact ih h

theorem alistFind_alistSet_ne {κ α : Type} [DecidableEq κ] (l : List (κ × α))
    (k k2 : κ) (a : α) (h : k2 ≠ k) :
    alistFind (alistSet l k a) k2 = alistFind l k2 := by
  induction l with
  | nil => simp [alistSet, alistFind]
  | cons p rest ih =>
    by_cases hp : p.1 = k
    · simp only [alistSet, List.map_cons, if_pos hp]
      rw [alistFind, if_neg (fun hh => h hh.symm), alistFind,
        if_neg (fun hh => h (hp ▸ hh).symm)]
      exact ih
    · simp only [alistSet, List.map_cons, if_neg hp]
      rw [alistFind, alistFind]
      by_cases hq : p.1 = k2
      · rw [if_pos hq, if_pos hq]
      · rw [if_neg hq, if_neg hq]
        exact ih

theorem alistFind_alistSet_isSome {κ α : Type} [DecidableEq κ] (l : List (κ × α))
    (k k2 : κ) (a : α) :
    (alistFind (alistSet l k a) k2).isSome = (alistFind l k2).isSome := by
  by_cases h : k2 = k
  · subst h
    by_cases hs : (alistFind l k2).isSome
    · rw [alistFind_alistSet_self l k2 a hs, hs]
      rfl
    · have hn : alistFind l k2 = none := Option.not_isSome_iff_eq_none.mp hs
      rw [alistSet_of_find_none a hn]
  · rw [alistFind_alistSet_ne l k k2 a h]

theorem alistFind_alistPut_self {κ α : Type} [DecidableEq κ] (l : List (κ × α))
    (k : κ) (a : α) : alistFind (alistPut l k a) k = some a := by
  unfold alistPut
  by_cases h : (List.find? (fun p => decide (p.1 = k)) l).isSome
  · rw [if_pos h]
    exact alistFind_alistSet_self l k a (by rw [alistFind_isSome_iff_find?]; exact h)
  · rw [if_neg h]
    have hn : alistFind l k = none := by
      apply Option.not_isSome_iff_eq_none.mp
      rw [alistFind_isSome_iff_find?]
      exact h
    rw [alistFind_append, hn]
    simp [alistFind]

theorem alistFind_alistPut_ne {κ α : Type} [DecidableEq κ] (l : List (κ × α))
    (k k2 : κ) (a : α) (h : k2 ≠ k) :
    alistFind (alistPut l k a) k2 = alistFind l k2 := by
  unfold alistPut
  by_cases hs : (List.find? (fun p => decide (p.1 = k)) l).isSome
  · rw [if_pos hs]
    exact alistFind_alistSet_ne l k k2 a h
  · rw [if_neg hs, alistFind_append]
    cases hf : alistFind l k2 with
    | some b => rfl
    | none =>
      show alistFind [(k, a)] k2 = none
      rw [alistFind, if_neg (fun hh : (k, a).1 = k2 => h hh.symm)]
      rfl

theorem alistFind_alistErase_self {κ α : Type} [DecidableEq κ] (l : List (κ × α))
    (k : κ) : alistFind (alistErase l k) k = none := by
  induction l with
  | nil => simp [alistErase, alistFind]
  | cons p rest ih =>
    by_cases hp : p.1 = k
    · simpa [alistErase, List.filter_cons, hp] using ih
    · simpa [alistErase, List.filter_cons, hp, alistFind] using ih

theorem alistFind_alistErase_ne {κ α : Type} [DecidableEq κ] (l : List (κ × α))
    (k k2 : κ) (h : k2 ≠ k) :
    alistFind (alistErase l k) k2 = alistFind l k2 := by
  induction l with
  | nil => simp [alistErase, alistFind]
  | cons p rest ih =>
    by_cases hp : p.1 = k
    · rw [alistErase, List.filter_cons, if_neg (by simp [hp])]
      rw [alistFind, if_neg (by rw [hp]; exact fun hh => h hh.symm)]
      exact ih
    · rw [alistErase, List.filter_cons, if_pos (by simp [hp])]
      rw [alistFind, alistFind]
      by_cases hq : p.1 = k2
      · rw [if_pos hq, if_pos hq]
      · rw [if_neg hq, if_neg hq]
        exact ih

/-!  ## Claims C1, C2, C9, C10  -/

/-- Claim C1, code evaluated at the failing input: with
`BLOCK_ARRAY_SIZE = 4` and 2 block pages, a key hashing to 6 has
`slot = 6`, `block = 1`, and the source computes the starting bucket as
`block_index % BLOCK_ARRAY_SIZE = 1` (linear_probe_hash_table.cpp:268),
whereas the claimed rule `bucket = slot mod slots_per_block` gives
`6 mod 4 = 2`.  The spec itself (§9) names `slot mod slots_per_block` as
the correct form, so this is a bug in the code. -/
theorem c1_getindex_bug :
    htGetIndex 4 (fun _ => 6) (mkTable Nat Nat 4 2) 0 = (6, 1, 1) ∧
    specStartBucket 4 (fun _ => 6) (mkTable Nat Nat 4 2) 0 = 2 :=
  ⟨by decide, by decide⟩

/-- Claim C2, code evaluated at the failing input: pool of 1 frame; page 0
is written 42 and page 1 is written 99, so page 1 resides in frame 0; after
`flush_all_pages`, pool destruction and reconstruction over the same disk,
`fetch_page(1)` returns zeroed data instead of 99 (and `fetch_page(0)`
returns page 1's bytes), because `FlushAllPagesImpl` passes the frame index
to `DiskManager::WritePage` (buffer_pool_manager.cpp:178). -/
theorem c2_flushall_bug :
    residentData c2Step4 1 = 99 ∧
    (fetchPage c2Restarted 1).1 = some 0 ∧
    residentData (fetchPage c2Restarted 1).2.1 1 = 0 ∧
    residentData (fetchPage c2Restarted 0).2.1 0 = 99 :=
  ⟨by decide, by decide, by decide, by decide⟩

/-- Claim C9 (counterexample): a record whose header size field (20) is
positive and in bounds still fails to deserialize, because its kind tag
(1000) is rejected by the switch's default branch
(log_recovery.cpp:69-70) — failure is not "exactly when" the size is
non-positive or out of bounds. -/
theorem c9_counterexample :
    0 < readI32 c9BadBuf 0 ∧
    (0 : Int) + readI32 c9BadBuf 0 ≤ (c9BadBuf.length : Int) ∧
    deserializeLogRecord c9BadBuf 0 = none :=
  ⟨by decide, by decide, by decide⟩

/-- Claim C9 (amended): deserialization fails exactly when the header's
size field is non-positive, the record would extend beyond the fetched
buffer, or the kind tag is not a recognized record type; on success the
header fields are deserialized from their byte offsets. -/
theorem c9_deserialize_characterization (buf : List Nat) (pos : Nat) :
    ((deserializeLogRecord buf pos).isSome = true ↔
      (0 < readI32 buf pos ∧ (pos : Int) + readI32 buf pos ≤ (buf.length : Int) ∧
        decodeType (readU32 buf (pos + 16)) ≠ LogRecType.invalid)) ∧
    (∀ rec, deserializeLogRecord buf pos = some rec →
      rec.size = readI32 buf pos ∧ rec.lsn = readI32 buf (pos + 4) ∧
      rec.txnId = readI32 buf (pos + 8) ∧ rec.prevLsn = readI32 buf (pos + 12) ∧
      rec.rtype = decodeType (readU32 buf (pos + 16))) := by
  unfold deserializeLogRecord
  by_cases h1 : readI32 buf pos ≤ 0 ∨ (pos : Int) + readI32 buf pos > (buf.length : Int)
  · rw [if_pos h1]
    constructor
    · simp only [Option.isSome_none]
      constructor
      · intro h
        simp at h
      · intro h
        rcases h with ⟨ha, hb, -⟩
        rcases h1 with h1 | h1 <;> omega
    · intro rec h
      cases h
  · rw [if_neg h1]
    push_neg at h1
    dsimp only
    cases ht : decodeType (readU32 buf (pos + 16)) with
    | invalid =>
      refine ⟨⟨fun h => ?_, fun h => absurd rfl h.2.2⟩,
        fun rec h => Option.noConfusion h⟩
      have h2 : (none : Option LogRecord).isSome = true := h
      simp at h2
    | begin =>
      refine ⟨⟨fun _ => ⟨h1.1, h1.2, by decide⟩, fun _ => rfl⟩, fun rec h => ?_⟩
      cases Option.some.inj h
      exact ⟨rfl, rfl, rfl, rfl, rfl⟩
    | commit =>
      refine ⟨⟨fun _ => ⟨h1.1, h1.2, by decide⟩, fun _ => rfl⟩, fun rec h => ?_⟩
      cases Option.some.inj h
      exact ⟨rfl, rfl, rfl, rfl, rfl⟩
    | abort =>
      refine ⟨⟨fun _ => ⟨h1.1, h1.2, by decide⟩, fun _ => rfl⟩, fun rec h => ?_⟩
      cases Option.some.inj h
      exact ⟨rfl, rfl, rfl, rfl, rfl⟩
    | insert =>
      refine ⟨⟨fun _ => ⟨h1.1, h1.2, by decide⟩, fun _ => rfl⟩, fun rec h => ?_⟩
      cases Option.some.inj h
      exact ⟨rfl, rfl, rfl, rfl, rfl⟩
    | markdelete =>
      refine ⟨⟨fun _ => ⟨h1.1, h1.2, by decide⟩, fun _ => rfl⟩, fun rec h => ?_⟩
      cases Option.some.inj h
      exact ⟨rfl, rfl, rfl, rfl, rfl⟩
    | applydelete =>
      refine ⟨⟨fun _ => ⟨h1.1, h1.2, by decide⟩, fun _ => rfl⟩, fun rec h => ?_⟩
      cases Option.some.inj h
      exact ⟨rfl, rfl, rfl, rfl, rfl⟩
    | rollbackdelete =>
      refine ⟨⟨fun _ => ⟨h1.1, h1.2, by decide⟩, fun _ => rfl⟩, fun rec h => ?_⟩
      cases Option.some.inj h
      exact ⟨rfl, rfl, rfl, rfl, rfl⟩
    | update =>
      refine ⟨⟨fun _ => ⟨h1.1, h1.2, by decide⟩, fun _ => rfl⟩, fun rec h => ?_⟩
      cases Option.some.inj h
      exact ⟨rfl, rfl, rfl, rfl, rfl⟩
    | newpage =>
      refine ⟨⟨fun _ => ⟨h1.1, h1.2, by decide⟩, fun _ => rfl⟩, fun rec h => ?_⟩
      cases Option.some.inj h
      exact ⟨rfl, rfl, rfl, rfl, rfl⟩

/-- Witness for the C9 characterization at a concrete COMMIT record. -/
theorem c9_deserialize_characterization_witness :
    (deserializeLogRecord c9GoodBuf 0).isSome = true ∧
    ∀ rec, deserializeLogRecord c9GoodBuf 0 = some rec → rec.lsn = 5 := by
  constructor
  · exact (c9_deserialize_characterization c9GoodBuf 0).1.mpr (by decide)
  · intro rec h
    rw [((c9_deserialize_characterization c9GoodBuf 0).2 rec h).2.1]
    decide

/-- Claim C10: `delete_page` on a resident page with pin count 0 performs
no data-file write even when the frame is dirty: the page id is
deallocated, the page-table entry removed, the frame reset (dirty flag
cleared) and appended to the free list, and the on-disk store is
unchanged. -/
theorem c10_delete_page_discards (st : DbState) (pid : Int) (f : Nat)
    (hres : alistFind st.bp.pageTable pid = some f)
    (hpin : (st.bp.pages.getD f Page.init).pinCount = 0) :
    (deletePage st pid).1 = true ∧
    (deletePage st pid).2.2 = [] ∧
    (deletePage st pid).2.1.disk.store = st.disk.store ∧
    pid ∈ (deletePage st pid).2.1.disk.deallocated ∧
    alistFind (deletePage st pid).2.1.bp.pageTable pid = none ∧
    (deletePage st pid).2.1.bp.freeList = st.bp.freeList ++ [f] ∧
    ((deletePage st pid).2.1.bp.pages.getD f Page.init).dirty = false := by
  unfold deletePage
  rw [hres]
  dsimp only
  rw [if_neg (by rw [hpin]; decide)]
  refine ⟨rfl, rfl, rfl, ?_, ?_, rfl, ?_⟩
  · exact List.mem_append_right _ (List.mem_singleton.mpr rfl)
  · exact alistFind_alistErase_self _ _
  · rw [getD_set_self]
    rcases Nat.lt_or_ge f st.bp.pages.length with h | h
    · rw [if_pos h]
      rfl
    · rw [if_neg (Nat.not_lt.mpr h)]
      rfl

/-- Witness for C10 on a concrete pool state. -/
theorem c10_delete_page_discards_witness :
    (deletePage c10State 0).1 = true ∧
    (deletePage c10State 0).2.1.disk.store = c10State.disk.store :=
  let h := c10_delete_page_discards c10State 0 0 (by decide) (by decide)
  ⟨h.1, h.2.2.1⟩

/-!  ## Claim C3  -/

theorem walOrdered_nil : walOrdered [] := by
  intro e he
  simp at he

theorem walOrdered_append {l1 l2 : List BpEvent} (h1 : walOrdered l1)
    (h2 : walOrdered l2) : walOrdered (l1 ++ l2) := by
  intro e he
  rcases List.mem_append.mp he with h | h
  · exact h1 e h
  · exact h2 e h

/-- Claim C3 (counterexample): `flush_page` on a resident dirty page whose
page-LSN (0) exceeds the persistent-LSN (-1) writes the page to disk
without flushing the log first — the write happens with
persistent-LSN < page-LSN, violating the claimed unconditional WAL rule. -/
theorem c3_counterexample :
    (flushPage c3Step2 0).2.2 = [BpEvent.wrote 0 0 5 (-1)] ∧
    ¬ walOrdered (flushPage c3Step2 0).2.2 := by
  refine ⟨by decide, fun h => ?_⟩
  have h2 : (0 : Int) ≤ -1 := h (BpEvent.wrote 0 0 5 (-1)) (by decide)
  exact absurd h2 (by decide)

/-- The victim path of `GetVictimFrameId` respects the WAL rule: with
logging enabled, clean free-list frames, and every dirty frame's LSN below
`next_lsn`, the state it returns has persistent-LSN at least the victim's
page-LSN whenever the victim is dirty; the only event it emits is the log
flush. -/
theorem getVictim_wal (st : DbState)
    (hfree : ∀ f ∈ st.bp.freeList, (st.bp.pages.getD f Page.init).dirty = false)
    (hlsn : ∀ i : Nat, (st.bp.pages.getD i Page.init).dirty = true →
      (st.bp.pages.getD i Page.init).lsn < st.lm.nextLsn)
    (hlog : st.enableLogging = true) :
    (getVictimFrameId st).2.1.bp.pages = st.bp.pages ∧
    walOrdered (getVictimFrameId st).2.2 ∧
    (∀ f, (getVictimFrameId st).1 = some f →
      (st.bp.pages.getD f Page.init).dirty = true →
      (st.bp.pages.getD f Page.init).lsn ≤ (getVictimFrameId st).2.1.lm.persistentLsn) := by
  unfold getVictimFrameId
  cases hfl : st.bp.freeList with
  | cons g rest =>
    refine ⟨rfl, walOrdered_nil, ?_⟩
    intro f hf hd
    cases Option.some.inj hf
    have hclean := hfree g (by rw [hfl]; exact List.mem_cons_self g rest)
    rw [hclean] at hd
    exact Bool.noConfusion hd
  | nil =>
    cases hv : st.bp.replacer.victim with
    | none => exact ⟨rfl, walOrdered_nil, fun f hf => by cases hf⟩
    | some pr =>
      obtain ⟨f0, rep2⟩ := pr
      dsimp only
      rw [hlog]
      rw [if_pos rfl]
      by_cases hc : ((st.bp.pages.getD f0 Page.init).dirty &&
          decide ((st.bp.pages.getD f0 Page.init).lsn > st.lm.persistentLsn)) = true
      · rw [if_pos hc]
        refine ⟨rfl, ?_, ?_⟩
        · intro e he
          rcases List.mem_singleton.mp he with rfl
          trivial
        · intro f hf hd
          cases Option.some.inj hf
          have hlt := hlsn f0 hd
          show _ ≤ st.lm.nextLsn - 1
          omega
      · rw [if_neg hc]
        refine ⟨rfl, walOrdered_nil, ?_⟩
        intro f hf hd
        cases Option.some.inj hf
        have hng : ¬ ((st.bp.pages.getD f0 Page.init).lsn > st.lm.persistentLsn) := by
          intro hgt
          exact hc (by rw [hd, Bool.true_and]; exact decide_eq_true hgt)
        show _ ≤ st.lm.persistentLsn
        omega

/-- Claim C3 (amended): with logging enabled (and the structural facts that
free-list frames are clean and dirty frames carry LSNs already assigned by
the log manager), the dirty-victim writes performed by `fetch_page` and
`new_page` do respect the WAL rule — `GetVictimFrameId` flushes the log
first (buffer_pool_manager.cpp:195-201) — but `flush_page` and
`flush_all_pages` write dirty pages without consulting the persistent-LSN
(see the counterexample). -/
theorem c3_eviction_wal_amended (st : DbState) (pid : Int)
    (hlog : st.enableLogging = true)
    (hfree : ∀ f ∈ st.bp.freeList, (st.bp.pages.getD f Page.init).dirty = false)
    (hlsn : ∀ i : Nat, (st.bp.pages.getD i Page.init).dirty = true →
      (st.bp.pages.getD i Page.init).lsn < st.lm.nextLsn) :
    walOrdered (fetchPage st pid).2.2 ∧ walOrdered (newPage st).2.2 := by
  obtain ⟨hpages, hwal, hvic⟩ := getVictim_wal st hfree hlsn hlog
  constructor
  · unfold fetchPage
    cases hfind : alistFind st.bp.pageTable pid with
    | some f => exact walOrdered_nil
    | none =>
      rcases hgv : getVictimFrameId st with ⟨ofr, st1, evs⟩
      rw [hgv] at hpages hwal hvic
      cases ofr with
      | none => exact hwal
      | some f =>
        show walOrdered (if (st1.bp.pages.getD f Page.init).dirty = true then
          evs ++ [BpEvent.wrote (st1.bp.pages.getD f Page.init).pageId
            (st1.bp.pages.getD f Page.init).lsn
            (st1.bp.pages.getD f Page.init).data st1.lm.persistentLsn] else evs)
        by_cases hd : (st1.bp.pages.getD f Page.init).dirty = true
        · rw [if_pos hd]
          refine walOrdered_append hwal ?_
          intro e he
          rcases List.mem_singleton.mp he with rfl
          have hpages2 : st1.bp.pages = st.bp.pages := hpages
          have hvic2 : (st.bp.pages.getD f Page.init).dirty = true →
              (st.bp.pages.getD f Page.init).lsn ≤ st1.lm.persistentLsn := hvic f rfl
          rw [hpages2] at hd
          show (st1.bp.pages.getD f Page.init).lsn ≤ st1.lm.persistentLsn
          rw [hpages2]
          exact hvic2 hd
        · rw [if_neg hd]
          exact hwal
  · unfold newPage
    by_cases hem : (st.bp.freeList.isEmpty && decide (st.bp.replacer.size = 0)) = true
    · rw [if_pos hem]
      exact walOrdered_nil
    · rw [if_neg hem]
      rcases hgv : getVictimFrameId st with ⟨ofr, st1, evs⟩
      rw [hgv] at hpages hwal hvic
      cases ofr with
      | none => exact hwal
      | some f =>
        show walOrdered (if (st1.bp.pages.getD f Page.init).dirty = true then
          evs ++ [BpEvent.wrote (st1.bp.pages.getD f Page.init).pageId
            (st1.bp.pages.getD f Page.init).lsn
            (st1.bp.pages.getD f Page.init).data st1.lm.persistentLsn] else evs)
        by_cases hd : (st1.bp.pages.getD f Page.init).dirty = true
        · rw [if_pos hd]
          refine walOrdered_append hwal ?_
          intro e he
          rcases List.mem_singleton.mp he with rfl
          have hpages2 : st1.bp.pages = st.bp.pages := hpages
          have hvic2 : (st.bp.pages.getD f Page.init).dirty = true →
              (st.bp.pages.getD f Page.init).lsn ≤ st1.lm.persistentLsn := hvic f rfl
          rw [hpages2] at hd
          show (st1.bp.pages.getD f Page.init).lsn ≤ st1.lm.persistentLsn
          rw [hpages2]
          exact hvic2 hd
        · rw [if_neg hd]
          exact hwal

/-- Witness for the amended C3 theorem on a concrete logging-enabled
state whose only page is dirty with page-LSN 0 < next-LSN 1. -/
theorem c3_eviction_wal_amended_witness :
    walOrdered (fetchPage c3Step2 5).2.2 :=
  (c3_eviction_wal_amended c3Step2 5 (by decide) (by decide)
    (by
      intro i hd
      cases i with
      | zero => decide
      | succ n => exact Bool.noConfusion hd)).1

/-!  ## Claim C6  -/

theorem getTablePage_pages_put_self (l : List (Int × TablePageM))
    (l2 l3 : List (Int × Int)) (pid : Int) (pg : TablePageM) :
    getTablePage { pages := alistPut l pid pg, activeTxn := l2, lsnMapping := l3 }
      pid = pg := by
  simp [getTablePage, alistFind_alistPut_self]

theorem getTablePage_pages_put_ne (l : List (Int × TablePageM))
    (l2 l3 : List (Int × Int)) (pid pid2 : Int) (pg : TablePageM) (h : pid ≠ pid2) :
    getTablePage { pages := alistPut l pid2 pg, activeTxn := l2, lsnMapping := l3 }
      pid = (alistFind l pid).getD (TablePageM.fresh pid) := by
  simp [getTablePage, alistFind_alistPut_ne _ _ _ _ h]

/-- Claim C6: one iteration of the redo loop records
`lsn_mapping[lsn] = offset`, sets `active_txn[txn_id] = lsn` for
non-COMMIT/ABORT records and erases the transaction for COMMIT/ABORT; for
the six mutating kinds the mutation is replayed on the affected page
exactly when the page's LSN is below the record's LSN, and the final
`UnpinPage` call for the affected page passes `dirty = true` exactly when
the replay occurred. -/
theorem c6_redo_record (st : RecoveryState) (rec : LogRecord) (off : Int) :
    alistFind (redoRecord st rec off).1.lsnMapping rec.lsn = some off ∧
    (rec.rtype ≠ LogRecType.commit → rec.rtype ≠ LogRecType.abort →
      alistFind (redoRecord st rec off).1.activeTxn rec.txnId = some rec.lsn) ∧
    ((rec.rtype = LogRecType.commit ∨ rec.rtype = LogRecType.abort) →
      alistFind (redoRecord st rec off).1.activeTxn rec.txnId = none) ∧
    (rec.isMutation = true →
      (getTablePage (redoRecord st rec off).1 rec.affectedPage).muts =
        (getTablePage st rec.affectedPage).muts ++
          (if (getTablePage st rec.affectedPage).lsn < rec.lsn then [rec.redoMutOf] else []) ∧
      (redoRecord st rec off).2.getLast? =
        some (rec.affectedPage, decide ((getTablePage st rec.affectedPage).lsn < rec.lsn))) := by
  cases hty : rec.rtype with
  | insert =>
    simp only [redoRecord, LogRecord.isMutation, LogRecord.affectedPage, LogRecord.redoMutOf, hty]
    refine ⟨?_, ?_, ?_, ?_⟩
    · exact alistFind_alistPut_self _ _ _
    · intro _ _
      exact alistFind_alistPut_self _ _ _
    · intro h
      rcases h with h | h <;> cases h
    · intro _
      constructor
      · rw [getTablePage_pages_put_self]
        split
        · rename_i hrep
          rw [if_pos (show (getTablePage st rec.rid.1).lsn < rec.lsn from hrep)]
          rfl
        · rename_i hrep
          rw [if_neg (show ¬ (getTablePage st rec.rid.1).lsn < rec.lsn from hrep),
            List.append_nil]
          rfl
      · split
        · rfl
        · rfl
  | update =>
    simp only [redoRecord, LogRecord.isMutation, LogRecord.affectedPage, LogRecord.redoMutOf, hty]
    refine ⟨?_, ?_, ?_, ?_⟩
    · exact alistFind_alistPut_self _ _ _
    · intro _ _
      exact alistFind_alistPut_self _ _ _
    · intro h
      rcases h with h | h <;> cases h
    · intro _
      constructor
      · rw [getTablePage_pages_put_self]
        split
        · rename_i hrep
          rw [if_pos (show (getTablePage st rec.rid.1).lsn < rec.lsn from hrep)]
          rfl
        · rename_i hrep
          rw [if_neg (show ¬ (getTablePage st rec.rid.1).lsn < rec.lsn from hrep),
            List.append_nil]
          rfl
      · split
        · rfl
        · rfl
  | markdelete =>
    simp only [redoRecord, LogRecord.isMutation, LogRecord.affectedPage, LogRecord.redoMutOf, hty]
    refine ⟨?_, ?_, ?_, ?_⟩
    · exact alistFind_alistPut_self _ _ _
    · intro _ _
      exact alistFind_alistPut_self _ _ _
    · intro h
      rcases h with h | h <;> cases h
    · intro _
      constructor
      · rw [getTablePage_pages_put_self]
        split
        · rename_i hrep
          rw [if_pos (show (getTablePage st rec.rid.1).lsn < rec.lsn from hrep)]
          rfl
        · rename_i hrep
          rw [if_neg (show ¬ (getTablePage st rec.rid.1).lsn < rec.lsn from hrep),
            List.append_nil]
          rfl
      · split
        · rfl
        · rfl
  | applydelete =>
    simp only [redoRecord, LogRecord.isMutation, LogRecord.affectedPage, LogRecord.redoMutOf, hty]
    refine ⟨?_, ?_, ?_, ?_⟩
    · exact alistFind_alistPut_self _ _ _
    · intro _ _
      exact alistFind_alistPut_self _ _ _
    · intro h
      rcases h with h | h <;> cases h
    · intro _
      constructor
      · rw [getTablePage_pages_put_self]
        split
        · rename_i hrep
          rw [if_pos (show (getTablePage st rec.rid.1).lsn < rec.lsn from hrep)]
          rfl
        · rename_i hrep
          rw [if_neg (show ¬ (getTablePage st rec.rid.1).lsn < rec.lsn from hrep),
            List.append_nil]
          rfl
      · split
        · rfl
        · rfl
  | rollbackdelete =>
    simp only [redoRecord, LogRecord.isMutation, LogRecord.affectedPage, LogRecord.redoMutOf, hty]
    refine ⟨?_, ?_, ?_, ?_⟩
    · exact alistFind_alistPut_self _ _ _
    · intro _ _
      exact alistFind_alistPut_self _ _ _
    · intro h
      rcases h with h | h <;> cases h
    · intro _
      constructor
      · rw [getTablePage_pages_put_self]
        split
        · rename_i hrep
          rw [if_pos (show (getTablePage st rec.rid.1).lsn < rec.lsn from hrep)]
          rfl
        · rename_i hrep
          rw [if_neg (show ¬ (getTablePage st rec.rid.1).lsn < rec.lsn from hrep),
            List.append_nil]
          rfl
      · split
        · rfl
        · rfl
  | commit =>
    simp only [redoRecord, LogRecord.isMutation, hty]
    refine ⟨?_, ?_, ?_, ?_⟩
    · exact alistFind_alistPut_self _ _ _
    · intro h _
      exact absurd rfl h
    · intro _
      exact alistFind_alistErase_self _ _
    · intro h
      exact Bool.noConfusion h
  | abort =>
    simp only [redoRecord, LogRecord.isMutation, hty]
    refine ⟨?_, ?_, ?_, ?_⟩
    · exact alistFind_alistPut_self _ _ _
    · intro _ h
      exact absurd rfl h
    · intro _
      exact alistFind_alistErase_self _ _
    · intro h
      exact Bool.noConfusion h
  | begin =>
    simp only [redoRecord, LogRecord.isMutation, hty]
    refine ⟨?_, ?_, ?_, ?_⟩
    · exact alistFind_alistPut_self _ _ _
    · intro _ _
      exact alistFind_alistPut_self _ _ _
    · intro h
      rcases h with h | h <;> cases h
    · intro h
      exact Bool.noConfusion h
  | invalid =>
    simp only [redoRecord, LogRecord.isMutation, hty]
    refine ⟨?_, ?_, ?_, ?_⟩
    · exact alistFind_alistPut_self _ _ _
    · intro _ _
      exact alistFind_alistPut_self _ _ _
    · intro h
      rcases h with h | h <;> cases h
    · intro h
      exact Bool.noConfusion h
  | newpage =>
    simp only [redoRecord, LogRecord.isMutation, LogRecord.affectedPage, LogRecord.redoMutOf, hty]
    refine ⟨?_, ?_, ?_, ?_⟩
    · split
      · split
        · split
          · exact alistFind_alistPut_self _ _ _
          · exact alistFind_alistPut_self _ _ _
        · exact alistFind_alistPut_self _ _ _
      · exact alistFind_alistPut_self _ _ _
    · intro _ _
      split
      · split
        · split
          · exact alistFind_alistPut_self _ _ _
          · exact alistFind_alistPut_self _ _ _
        · exact alistFind_alistPut_self _ _ _
      · exact alistFind_alistPut_self _ _ _
    · intro h
      rcases h with h | h <;> cases h
    · intro _
      constructor
      · split
        · rename_i hrep
          rw [if_pos (show (getTablePage st rec.pageId).lsn < rec.lsn from hrep)]
          split
          · split
            · by_cases hpp : rec.pageId = rec.prevPageId
              · rw [← hpp, getTablePage_pages_put_self, getTablePage_pages_put_self]
                rfl
              · rw [getTablePage_pages_put_ne _ _ _ _ _ _ hpp, alistFind_alistPut_self,
                  Option.getD_some]
                rfl
            · rw [getTablePage_pages_put_self]
              rfl
          · rw [getTablePage_pages_put_self]
            rfl
        · rename_i hrep
          rw [if_neg (show ¬ (getTablePage st rec.pageId).lsn < rec.lsn from hrep),
            List.append_nil, getTablePage_pages_put_self]
          rfl
      · split
        · split
          · split
            · rfl
            · rfl
          · rfl
        · rfl

/-- Witness for C6 at a concrete INSERT record and the COMMIT record of the
same transaction. -/
theorem c6_redo_record_witness :
    alistFind (redoRecord ⟨[], [], []⟩ c6Record 100).1.activeTxn c6Record.txnId =
      some c6Record.lsn ∧
    alistFind (redoRecord ⟨[], [], []⟩ c6Commit 100).1.activeTxn c6Commit.txnId = none :=
  ⟨(c6_redo_record ⟨[], [], []⟩ c6Record 100).2.1 (by decide) (by decide),
   (c6_redo_record ⟨[], [], []⟩ c6Commit 100).2.2.1 (Or.inl (by decide))⟩

/-!  ## Claim C7  -/

theorem victimLoop_sel : ∀ (fuel : Nat) (frames : List (Bool × Bool)) (hand f : Nat)
    (frames2 : List (Bool × Bool)) (hand2 : Nat),
    victimLoop fuel frames hand = some (f, frames2, hand2) →
    (∃ b, frames[f]? = some (true, b)) ∧ frames2[f]? = some (false, false) ∧
      frames2.length = frames.length := by
  intro fuel
  induction fuel with
  | zero => intro frames hand f frames2 hand2 h; cases h
  | succ fuel ih =>
    intro frames hand f frames2 hand2 h
    rw [victimLoop] at h
    cases hfp : frames[hand % frames.length]? with
    | none =>
      rw [hfp] at h
      exact ih frames _ f frames2 hand2 h
    | some fr =>
      obtain ⟨b1, b2⟩ := fr
      cases b1 with
      | false =>
        rw [hfp] at h
        exact ih frames _ f frames2 hand2 h
      | true =>
        cases b2 with
        | true =>
          rw [hfp] at h
          obtain ⟨⟨b, hb⟩, h2, h3⟩ := ih _ _ f frames2 hand2 h
          refine ⟨?_, h2, by simpa using h3⟩
          by_cases hfe : f = hand % frames.length
          · exact ⟨true, hfe ▸ hfp⟩
          · rw [List.getElem?_set_ne (fun hh => hfe hh.symm)] at hb
            exact ⟨b, hb⟩
        | false =>
          rw [hfp] at h
          obtain ⟨rfl, rfl, rfl⟩ := Prod.mk.injEq .. ▸ Option.some.inj h
          have hlt : hand % frames.length < frames.length :=
            List.getElem?_eq_some.mp hfp |>.1
          refine ⟨⟨false, hfp⟩, ?_, by simp⟩
          rw [List.getElem?_set_self hlt]

theorem victimLoop_reach_free : ∀ (k fuel : Nat) (frames : List (Bool × Bool))
    (hand j : Nat), frames[j]? = some (true, false) →
    (hand + k) % frames.length = j → k + 1 ≤ fuel →
    (victimLoop fuel frames hand).isSome = true := by
  intro k
  induction k with
  | zero =>
    intro fuel frames hand j hj hmod hfuel
    obtain ⟨fuel, rfl⟩ : ∃ m, fuel = m + 1 := ⟨fuel - 1, by omega⟩
    rw [victimLoop]
    rw [Nat.add_zero] at hmod
    rw [hmod, hj]
    rfl
  | succ k ih =>
    intro fuel frames hand j hj hmod hfuel
    obtain ⟨fuel, rfl⟩ : ∃ m, fuel = m + 1 := ⟨fuel - 1, by omega⟩
    rw [victimLoop]
    have hn : 0 < frames.length := by
      have := (List.getElem?_eq_some.mp hj).1
      omega
    have hp : hand % frames.length < frames.length := Nat.mod_lt _ hn
    have hmod2 : (hand % frames.length + 1 + k) % frames.length = j := by
      rw [Nat.add_assoc, Nat.mod_add_mod,
        show hand + (1 + k) = hand + (k + 1) from by omega]
      exact hmod
    cases hfp : frames[hand % frames.length]? with
    | none =>
      rw [List.getElem?_eq_none_iff] at hfp
      omega
    | some fr =>
      obtain ⟨b1, b2⟩ := fr
      cases b1 with
      | false =>
        exact ih fuel frames _ j hj hmod2 (by omega)
      | true =>
        cases b2 with
        | false => rfl
        | true =>
          show (victimLoop fuel (frames.set (hand % frames.length) (true, false))
            (hand % frames.length + 1)).isSome = true
          refine ih fuel (frames.set (hand % frames.length) (true, false)) _ j ?_ ?_ (by omega)
          · by_cases hje : hand % frames.length = j
            · rw [← hje] at hj
              rw [hj] at hfp
              simp at hfp
            · rw [List.getElem?_set_ne hje]
              exact hj
          · rw [List.length_set]
            exact hmod2

theorem victimLoop_reach_contained : ∀ (k fuel : Nat) (frames : List (Bool × Bool))
    (hand j : Nat) (b : Bool), frames[j]? = some (true, b) →
    (hand + k) % frames.length = j → k + 1 + frames.length ≤ fuel →
    (victimLoop fuel frames hand).isSome = true := by
  intro k
  induction k with
  | zero =>
    intro fuel frames hand j b hj hmod hfuel
    have hn : 0 < frames.length := by
      have := (List.getElem?_eq_some.mp hj).1
      omega
    rw [Nat.add_zero] at hmod
    cases b with
    | false => exact victimLoop_reach_free 0 fuel frames hand j hj (by rwa [Nat.add_zero]) (by omega)
    | true =>
      obtain ⟨fuel, rfl⟩ : ∃ m, fuel = m + 1 := ⟨fuel - 1, by omega⟩
      rw [victimLoop]
      have hj2 : j < frames.length := (List.getElem?_eq_some.mp hj).1
      rw [hmod, hj]
      show (victimLoop fuel (frames.set j (true, false)) (j + 1)).isSome = true
      refine victimLoop_reach_free (frames.length - 1) fuel
        (frames.set j (true, false)) (j + 1) j ?_ ?_ (by omega)
      · rw [List.getElem?_set_self hj2]
      · rw [List.length_set]
        have : j + 1 + (frames.length - 1) = j + frames.length := by omega
        rw [this, Nat.add_mod_right]
        exact Nat.mod_eq_of_lt hj2
  | succ k ih =>
    intro fuel frames hand j b hj hmod hfuel
    have hn : 0 < frames.length := by
      have := (List.getElem?_eq_some.mp hj).1
      omega
    have hp : hand % frames.length < frames.length := Nat.mod_lt _ hn
    have hj2 : j < frames.length := (List.getElem?_eq_some.mp hj).1
    have hmod2 : (hand % frames.length + 1 + k) % frames.length = j := by
      rw [Nat.add_assoc, Nat.mod_add_mod,
        show hand + (1 + k) = hand + (k + 1) from by omega]
      exact hmod
    obtain ⟨fuel, rfl⟩ : ∃ m, fuel = m + 1 := ⟨fuel - 1, by omega⟩
    rw [victimLoop]
    cases hfp : frames[hand % frames.length]? with
    | none =>
      rw [List.getElem?_eq_none_iff] at hfp
      omega
    | some fr =>
      obtain ⟨b1, b2⟩ := fr
      cases b1 with
      | false =>
        exact ih fuel frames _ j b hj hmod2 (by omega)
      | true =>
        cases b2 with
        | false => rfl
        | true =>
          show (victimLoop fuel (frames.set (hand % frames.length) (true, false))
            (hand % frames.length + 1)).isSome = true
          by_cases hje : hand % frames.length = j
          · refine victimLoop_reach_free (frames.length - 1) fuel
              (frames.set (hand % frames.length) (true, false)) _ j ?_ ?_ (by omega)
            · rw [hje, List.getElem?_set_self hj2]
            · rw [List.length_set]
              have : hand % frames.length + 1 + (frames.length - 1) =
                  hand % frames.length + frames.length := by omega
              rw [this, Nat.add_mod_right, hje]
              exact Nat.mod_eq_of_lt hj2
          · refine ih fuel (frames.set (hand % frames.length) (true, false)) _ j b ?_ ?_
              (by rw [List.length_set]; omega)
            · rw [List.getElem?_set_ne hje]
              exact hj
            · rw [List.length_set]
              exact hmod2

theorem exists_cyclic_distance (n hand j : Nat) (hj : j < n) :
    ∃ k, k < n ∧ (hand + k) % n = j := by
  have hn : 0 < n := by omega
  have hh : hand % n < n := Nat.mod_lt _ hn
  by_cases hle : hand % n ≤ j
  · refine ⟨j - hand % n, by omega, ?_⟩
    have h1 : hand + (j - hand % n) = hand - hand % n + j := by
      have := Nat.mod_le hand n
      omega
    rw [h1]
    have h2 : hand - hand % n = n * (hand / n) := by
      have := (Nat.div_add_mod hand n).symm
      omega
    rw [h2, Nat.mul_add_mod]
    exact Nat.mod_eq_of_lt hj
  · refine ⟨n + j - hand % n, by omega, ?_⟩
    have h1 : hand + (n + j - hand % n) = hand - hand % n + (n + j) := by
      have := Nat.mod_le hand n
      omega
    rw [h1]
    have h2 : hand - hand % n = n * (hand / n) := by
      have := (Nat.div_add_mod hand n).symm
      omega
    rw [h2, Nat.mul_add_mod, Nat.add_comm n j, Nat.add_mod_right]
    exact Nat.mod_eq_of_lt hj

/-- Claim C7: `Victim` returns none exactly when no frame is contained;
a returned frame was contained at selection time and leaves with
`(contains, ref) = (false, false)`; a frame that `Pin` has reset (and that
has not been unpinned since) is never returned. -/
theorem c7_clock_victim (r : ClockReplacer) :
    (r.victim = none ↔ ∀ fr ∈ r.frames, fr.1 = false) ∧
    (∀ f r2, r.victim = some (f, r2) →
      (∃ b, r.frames[f]? = some (true, b)) ∧ r2.frames[f]? = some (false, false)) ∧
    (∀ f b, r.frames[f]? = some (false, b) → ∀ r2, r.victim ≠ some (f, r2)) := by
  have hsel : ∀ f r2, r.victim = some (f, r2) →
      (∃ b, r.frames[f]? = some (true, b)) ∧ r2.frames[f]? = some (false, false) := by
    intro f r2 h
    unfold ClockReplacer.victim at h
    by_cases hz : r.size = 0
    · rw [if_pos hz] at h
      cases h
    · rw [if_neg hz] at h
      cases hloop : victimLoop (2 * r.frames.length) r.frames r.hand with
      | none => rw [hloop] at h; cases h
      | some t =>
        obtain ⟨f0, frames2, hand2⟩ := t
        rw [hloop] at h
        obtain ⟨h1, h2⟩ := Prod.mk.injEq .. ▸ Option.some.inj h
        obtain ⟨hmem, hafter, -⟩ := victimLoop_sel _ _ _ _ _ _ hloop
        subst h1
        rw [← h2]
        exact ⟨hmem, hafter⟩
  refine ⟨⟨?_, ?_⟩, hsel, ?_⟩
  · intro h fr hmem
    by_contra hcon
    have hfr : fr = (true, fr.2) := by
      obtain ⟨a, b⟩ := fr
      simp at hcon ⊢
      simpa using hcon
    obtain ⟨j, hjlt, hjget⟩ := List.mem_iff_getElem.mp hmem
    have hj : r.frames[j]? = some (true, fr.2) := by
      rw [List.getElem?_eq_getElem hjlt, hjget, ← hfr]
    obtain ⟨k, hk, hkm⟩ := exists_cyclic_distance r.frames.length r.hand j hjlt
    have hsome := victimLoop_reach_contained k (2 * r.frames.length) r.frames r.hand j fr.2
      hj hkm (by omega)
    unfold ClockReplacer.victim at h
    by_cases hz : r.size = 0
    · rw [ClockReplacer.size, List.countP_eq_zero] at hz
      have := hz fr hmem
      rw [hfr] at this
      simp at this
    · rw [if_neg hz] at h
      cases hloop : victimLoop (2 * r.frames.length) r.frames r.hand with
      | none => rw [hloop] at hsome; cases hsome
      | some t =>
        obtain ⟨f0, frames2, hand2⟩ := t
        rw [hloop] at h
        cases h
  · intro h
    unfold ClockReplacer.victim
    rw [if_pos]
    rw [ClockReplacer.size, List.countP_eq_zero]
    intro fr hmem
    rw [h fr hmem]
    simp
  · intro f b hfb r2 hcon
    obtain ⟨⟨b2, hb2⟩, -⟩ := hsel f r2 hcon
    rw [hfb] at hb2
    cases hb2

/-- Witness for C7 on a two-frame replacer with frame 1 unpinned. -/
theorem c7_clock_victim_witness :
    ∃ b, ((ClockReplacer.init 2).unpin 1).frames[1]? = some (true, b) :=
  ((c7_clock_victim ((ClockReplacer.init 2).unpin 1)).2.1 1
    ⟨[(false, false), (false, false)], 2⟩ (by decide)).1

/-!  ## Claim C8  -/

theorem applyBlockOp_ins_eq (bp : BlockPage K V) (i2 : Nat) (k : K) (v : V) :
    applyBlockOp bp (BlockOp.ins i2 k v) =
      if bp.isReadable i2 then bp else
        { occupied := bp.occupied.set i2 true
          readable := bp.readable.set i2 true
          slots := bp.slots.set i2 (k, v) } := by
  show (bp.insert i2 k v).1 = _
  unfold BlockPage.insert
  by_cases hr : bp.isReadable i2
  · rw [if_pos hr, if_pos hr]
  · rw [if_neg hr, if_neg hr]

theorem blockOp_step_inv (bp : BlockPage K V) (op : BlockOp K V)
    (hlen : bp.occupied.length = bp.readable.length)
    (hinv : ∀ i, bp.isReadable i = true → bp.isOccupied i = true) :
    (applyBlockOp bp op).occupied.length = (applyBlockOp bp op).readable.length ∧
    (∀ i, (applyBlockOp bp op).isReadable i = true →
      (applyBlockOp bp op).isOccupied i = true) := by
  cases op with
  | ins i2 k v =>
    rw [applyBlockOp_ins_eq]
    by_cases hr : bp.isReadable i2
    · rw [if_pos hr]
      exact ⟨hlen, hinv⟩
    · rw [if_neg hr]
      refine ⟨by simpa using hlen, ?_⟩
      intro i hread
      have hread2 : (bp.readable.set i2 true).getD i false = true := hread
      show (bp.occupied.set i2 true).getD i false = true
      by_cases hii : i2 = i
      · subst hii
        rw [getD_set_self]
        rcases Nat.lt_or_ge i2 bp.occupied.length with h | h
        · rw [if_pos h]
        · rw [if_neg (Nat.not_lt.mpr h)]
          rw [getD_set_self, if_neg (Nat.not_lt.mpr (hlen ▸ h))] at hread2
          cases hread2
      · rw [getD_set_ne _ _ _ hii] at hread2
        rw [getD_set_ne _ _ _ hii]
        exact hinv i hread2
  | rem i2 =>
    refine ⟨by simpa [applyBlockOp, BlockPage.remove] using hlen, ?_⟩
    intro i hread
    have hread2 : (bp.readable.set i2 false).getD i false = true := hread
    show bp.occupied.getD i false = true
    by_cases hii : i2 = i
    · subst hii
      rw [getD_set_self] at hread2
      rcases Nat.lt_or_ge i2 bp.readable.length with h | h
      · rw [if_pos h] at hread2
        cases hread2
      · rw [if_neg (Nat.not_lt.mpr h)] at hread2
        cases hread2
    · rw [getD_set_ne _ _ _ hii] at hread2
      exact hinv i hread2

theorem blockOps_fold_inv (bas : Nat) : ∀ (ops : List (BlockOp K V)) (bp : BlockPage K V),
    bp.occupied.length = bp.readable.length →
    (∀ i, bp.isReadable i = true → bp.isOccupied i = true) →
    (∀ i, (ops.foldl applyBlockOp bp).isReadable i = true →
      (ops.foldl applyBlockOp bp).isOccupied i = true) := by
  intro ops
  induction ops with
  | nil => intro bp _ hinv; exact hinv
  | cons op rest ih =>
    intro bp hlen hinv
    obtain ⟨hlen2, hinv2⟩ := blockOp_step_inv bp op hlen hinv
    exact ih (applyBlockOp bp op) hlen2 hinv2

/-- Claim C8: running any sequence of block-page inserts and removes from a
reset page keeps `readable ⇒ occupied` in every slot; the occupied bit of a
slot, once set, is never cleared by any insert or remove; and `Remove`
clears only the readable bit of its slot (occupied bits, the slot array,
and all other readable bits are untouched). -/
theorem c8_block_bitmap_invariants (bas : Nat) :
    (∀ (ops : List (BlockOp K V)) (i : Nat),
      (runBlockOps bas ops).isReadable i = true →
        (runBlockOps bas ops).isOccupied i = true) ∧
    (∀ (bp : BlockPage K V) (op : BlockOp K V) (i : Nat),
      bp.isOccupied i = true → (applyBlockOp bp op).isOccupied i = true) ∧
    (∀ (bp : BlockPage K V) (i : Nat),
      (bp.remove i).occupied = bp.occupied ∧ (bp.remove i).slots = bp.slots ∧
      ∀ j, j ≠ i → (bp.remove i).isReadable j = bp.isReadable j) := by
  refine ⟨?_, ?_, ?_⟩
  · intro ops i
    refine blockOps_fold_inv bas ops (BlockPage.reset K V bas) (by simp [BlockPage.reset]) ?_ i
    intro i2 hread
    rw [show (BlockPage.reset K V bas).isReadable i2 =
      (List.replicate bas false).getD i2 false from rfl, getD_replicate] at hread
    split at hread <;> cases hread
  · intro bp op i hocc
    cases op with
    | ins i2 k v =>
      show ((bp.insert i2 k v).1.occupied.getD i false) = true
      unfold BlockPage.insert
      by_cases hr : bp.isReadable i2
      · rw [if_pos hr]
        exact hocc
      · rw [if_neg hr]
        show (bp.occupied.set i2 true).getD i false = true
        by_cases hii : i2 = i
        · subst hii
          rw [getD_set_self]
          rcases Nat.lt_or_ge i2 bp.occupied.length with h | h
          · rw [if_pos h]
          · rw [if_neg (Nat.not_lt.mpr h)]
            rw [show bp.isOccupied i2 = bp.occupied.getD i2 false from rfl,
              List.getD_eq_getElem?_getD, List.getElem?_eq_none (by omega)] at hocc
            cases hocc
        · rw [getD_set_ne _ _ _ hii]
          exact hocc
    | rem i2 =>
      exact hocc
  · intro bp i
    refine ⟨rfl, rfl, ?_⟩
    intro j hj
    show (bp.readable.set i false).getD j false = bp.readable.getD j false
    exact getD_set_ne _ _ _ (fun hh => hj hh.symm)

/-- Witness for C8 on a concrete operation sequence (insert at 0, insert at
1, remove at 0): slot 1 stays readable and occupied, slot 0 keeps its
occupied bit. -/
theorem c8_block_bitmap_invariants_witness :
    (runBlockOps (K := Nat) (V := Nat) 2
        [BlockOp.ins 0 5 6, BlockOp.ins 1 7 8, BlockOp.rem 0]).isOccupied 1 = true :=
  (c8_block_bitmap_invariants (K := Nat) (V := Nat) 2).1
    [BlockOp.ins 0 5 6, BlockOp.ins 1 7 8, BlockOp.rem 0] 1 (by decide)

/-!  ## Claims C4 and C5: probe and entry lemmas  -/

theorem insertProbe_claimed_spec (bas numBlocks slot : Nat) (bp : BlockPage K V)
    (k : K) (v : V) (hbas : 0 < bas) : ∀ (fuel blockIdx bucket : Nat), bucket < bas →
    ∀ b, insertProbe bas numBlocks slot bp k v fuel blockIdx bucket = ProbeResult.claimed b →
    bp.isReadable b = false ∧ b < bas := by
  intro fuel
  induction fuel with
  | zero => intro blockIdx bucket hbk b h; cases h
  | succ fuel ih =>
    intro blockIdx bucket hbk b h
    simp only [insertProbe] at h
    split at h
    · split at h
      · cases h
      · by_cases hwrap : bucket + 1 = bas
        · rw [if_pos hwrap] at h
          split at h
          · cases h
          · exact ih _ _ hbas b h
        · rw [if_neg hwrap] at h
          split at h
          · cases h
          · exact ih _ _ (by omega) b h
    · rename_i hr
      cases h
      exact ⟨by simpa using hr, hbk⟩

theorem insertProbe_dup_spec (bas numBlocks slot : Nat) (bp : BlockPage K V)
    (k : K) (v : V) (hbas : 0 < bas) : ∀ (fuel blockIdx bucket : Nat), bucket < bas →
    ∀ b, insertProbe bas numBlocks slot bp k v fuel blockIdx bucket = ProbeResult.dup b →
    bp.isReadable b = true ∧ bp.keyAt b = k ∧ bp.valueAt b = v ∧ b < bas := by
  intro fuel
  induction fuel with
  | zero => intro blockIdx bucket hbk b h; cases h
  | succ fuel ih =>
    intro blockIdx bucket hbk b h
    simp only [insertProbe] at h
    split at h
    · rename_i hr
      split at h
      · rename_i hm
        cases h
        rw [isMatch, Bool.and_eq_true, decide_eq_true_eq, decide_eq_true_eq] at hm
        exact ⟨hr, hm.1, hm.2, hbk⟩
      · by_cases hwrap : bucket + 1 = bas
        · rw [if_pos hwrap] at h
          split at h
          · cases h
          · exact ih _ _ hbas b h
        · rw [if_neg hwrap] at h
          split at h
          · cases h
          · exact ih _ _ (by omega) b h
    · cases h

theorem mem_entries_of_readable (bas : Nat) (bp : BlockPage K V) (b : Nat)
    (hb : b < bas) (hr : bp.isReadable b = true) :
    (bp.keyAt b, bp.valueAt b) ∈ BlockPage.entries bas bp := by
  unfold BlockPage.entries
  rw [List.mem_filterMap]
  exact ⟨b, List.mem_range.mpr hb, by rw [hr]; rfl⟩

theorem mem_entries_elim (bas : Nat) (bp : BlockPage K V) (p : K × V)
    (hp : p ∈ BlockPage.entries bas bp) :
    ∃ b, b < bas ∧ bp.isReadable b = true ∧ bp.keyAt b = p.1 ∧ bp.valueAt b = p.2 := by
  unfold BlockPage.entries at hp
  rw [List.mem_filterMap] at hp
  obtain ⟨b, hb, hf⟩ := hp
  by_cases hr : bp.isReadable b
  · rw [if_pos hr] at hf
    obtain ⟨h1, h2⟩ := Prod.mk.injEq .. ▸ Option.some.inj hf
    exact ⟨b, List.mem_range.mp hb, hr, h1, h2⟩
  · rw [if_neg hr] at hf
    cases hf

theorem mem_htEntries_of_block (bas : Nat) (ts : LinearProbeHashTable K V) (id : Nat)
    (hid : id ∈ ts.headerBlocks) (p : K × V)
    (hp : p ∈ BlockPage.entries bas (ts.getBlock bas id)) : p ∈ htEntries bas ts := by
  unfold htEntries
  rw [List.mem_flatten]
  exact ⟨_, List.mem_map_of_mem _ hid, hp⟩

theorem mem_htEntries_elim (bas : Nat) (ts : LinearProbeHashTable K V) (p : K × V)
    (hp : p ∈ htEntries bas ts) :
    ∃ id ∈ ts.headerBlocks, p ∈ BlockPage.entries bas (ts.getBlock bas id) := by
  unfold htEntries at hp
  rw [List.mem_flatten] at hp
  obtain ⟨L, hL, hpL⟩ := hp
  rw [List.mem_map] at hL
  obtain ⟨id, hid, rfl⟩ := hL
  exact ⟨id, hid, hpL⟩

theorem getBlock_lenWf (bas : Nat) (ts : LinearProbeHashTable K V) (id : Nat)
    (h : ∀ q ∈ ts.blocks, blockLenWf bas q.2) : blockLenWf bas (ts.getBlock bas id) := by
  unfold LinearProbeHashTable.getBlock
  cases hf : alistFind ts.blocks id with
  | some bp => exact h (id, bp) (alistFind_eq_some_mem hf)
  | none => exact ⟨by simp [BlockPage.reset], by simp [BlockPage.reset], by simp [BlockPage.reset]⟩

theorem headerBlocks_setBlock (ts : LinearProbeHashTable K V) (id : Nat)
    (bp : BlockPage K V) : (ts.setBlock id bp).headerBlocks = ts.headerBlocks := rfl

theorem getBlock_setBlock_ne (bas : Nat) (ts : LinearProbeHashTable K V)
    (id id2 : Nat) (bp : BlockPage K V) (h : id ≠ id2) :
    (ts.setBlock id2 bp).getBlock bas id = ts.getBlock bas id := by
  unfold LinearProbeHashTable.getBlock LinearProbeHashTable.setBlock
  rw [alistFind_alistSet_ne _ _ _ _ h]

theorem getBlock_setBlock_self (bas : Nat) (ts : LinearProbeHashTable K V)
    (id : Nat) (bp : BlockPage K V) (h : (alistFind ts.blocks id).isSome) :
    (ts.setBlock id bp).getBlock bas id = bp := by
  unfold LinearProbeHashTable.getBlock LinearProbeHashTable.setBlock
  rw [alistFind_alistSet_self _ _ _ h]
  rfl

theorem isReadable_mk (oc rd : List Bool) (sl : List (K × V)) (i : Nat) :
    BlockPage.isReadable { occupied := oc, readable := rd, slots := sl } i =
      rd.getD i false := rfl

theorem isOccupied_mk (oc rd : List Bool) (sl : List (K × V)) (i : Nat) :
    BlockPage.isOccupied { occupied := oc, readable := rd, slots := sl } i =
      oc.getD i false := rfl

theorem keyAt_mk (oc rd : List Bool) (sl : List (K × V)) (i : Nat) :
    BlockPage.keyAt { occupied := oc, readable := rd, slots := sl } i =
      (sl.getD i (default, default)).1 := rfl

theorem valueAt_mk (oc rd : List Bool) (sl : List (K × V)) (i : Nat) :
    BlockPage.valueAt { occupied := oc, readable := rd, slots := sl } i =
      (sl.getD i (default, default)).2 := rfl

theorem mem_entries_iff (bas : Nat) (bp : BlockPage K V) (p : K × V) :
    p ∈ BlockPage.entries bas bp ↔
      ∃ b2, b2 < bas ∧ bp.isReadable b2 = true ∧ bp.keyAt b2 = p.1 ∧
        bp.valueAt b2 = p.2 := by
  obtain ⟨x, y⟩ := p
  constructor
  · exact fun hp => mem_entries_elim bas bp _ hp
  · rintro ⟨b2, hb2, hr2, hk2, hv2⟩
    have h := mem_entries_of_readable bas bp b2 hb2 hr2
    rw [hk2, hv2] at h
    exact h

theorem mem_slotEntries_cons (bp : BlockPage K V) (i : Nat) (is : List Nat)
    (p : K × V) :
    p ∈ slotEntries bp (i :: is) ↔
      (bp.isReadable i = true ∧ p = (bp.keyAt i, bp.valueAt i)) ∨
        p ∈ slotEntries bp is := by
  by_cases hr : bp.isReadable i
  · simp [slotEntries, List.filterMap_cons, hr]
  · simp [slotEntries, List.filterMap_cons, hr]

theorem entries_eq_slotEntries (bas : Nat) (bp : BlockPage K V) :
    BlockPage.entries bas bp = slotEntries bp (List.range bas) := rfl

theorem entries_reset (bas : Nat) :
    BlockPage.entries bas (BlockPage.reset K V bas) = [] := by
  rw [List.eq_nil_iff_forall_not_mem]
  intro p hp
  obtain ⟨b, hb, hr, hk, hv⟩ := mem_entries_elim bas _ p hp
  rw [BlockPage.reset, isReadable_mk, getD_replicate] at hr
  split at hr
  · cases hr
  · cases hr

theorem alistFind_eq_none_keys {κ α : Type} [DecidableEq κ] (l : List (κ × α))
    (k : κ) (h : ∀ q ∈ l, q.1 ≠ k) : alistFind l k = none := by
  induction l with
  | nil => rfl
  | cons p rest ih =>
    rw [alistFind, if_neg (h p (List.mem_cons_self p rest))]
    exact ih (fun q hq => h q (List.mem_cons_of_mem p hq))

theorem alistFind_freshBlocks (bas s count k : Nat) :
    alistFind (freshBlocks K V bas s count) k =
      if s ≤ k ∧ k < s + count then some (BlockPage.reset K V bas) else none := by
  induction count with
  | zero =>
    rw [if_neg (by omega)]
    rfl
  | succ n ih =>
    have hsplit : freshBlocks K V bas s (n + 1) =
        freshBlocks K V bas s n ++ [(s + n, BlockPage.reset K V bas)] := by
      unfold freshBlocks
      rw [List.range_succ, List.map_append]
      rfl
    rw [hsplit, alistFind_append, ih]
    by_cases h1 : s ≤ k ∧ k < s + n
    · rw [if_pos h1, if_pos (by omega)]
    · rw [if_neg h1]
      by_cases h2 : k = s + n
      · subst h2
        rw [if_pos (by omega)]
        show (if s + n = s + n then some (BlockPage.reset K V bas) else none) =
          some (BlockPage.reset K V bas)
        rw [if_pos rfl]
      · rw [if_neg (by omega)]
        show (if s + n = k then some (BlockPage.reset K V bas) else none) = none
        rw [if_neg (by omega)]

theorem getBlock_eq_of_find_eq (bas : Nat) (ts ts2 : LinearProbeHashTable K V)
    (id : Nat) (h : alistFind ts2.blocks id = alistFind ts.blocks id) :
    ts2.getBlock bas id = ts.getBlock bas id := by
  unfold LinearProbeHashTable.getBlock
  rw [h]

theorem headerBlocks_deleteBlock (ts : LinearProbeHashTable K V) (id : Nat) :
    (ts.deleteBlock id).headerBlocks = ts.headerBlocks := rfl

theorem getBlock_deleteBlock_ne (bas : Nat) (ts : LinearProbeHashTable K V)
    (id id2 : Nat) (h : id ≠ id2) :
    (ts.deleteBlock id2).getBlock bas id = ts.getBlock bas id := by
  unfold LinearProbeHashTable.getBlock LinearProbeHashTable.deleteBlock
  rw [alistFind_alistErase_ne _ _ _ h]

theorem htEntries_congr (bas : Nat) (ts ts2 : LinearProbeHashTable K V)
    (hh : ts2.headerBlocks = ts.headerBlocks)
    (hb : ∀ id ∈ ts.headerBlocks, ts2.getBlock bas id = ts.getBlock bas id) :
    htEntries bas ts2 = htEntries bas ts := by
  unfold htEntries
  rw [hh]
  exact congrArg List.flatten (List.map_congr_left (fun id hid => by rw [hb id hid]))

theorem insert_not_readable_eq (bp : BlockPage K V) (b : Nat) (k : K) (v : V)
    (h : bp.isReadable b = false) :
    bp.insert b k v =
      ({ occupied := bp.occupied.set b true
         readable := bp.readable.set b true
         slots := bp.slots.set b (k, v) }, true) := by
  simp [BlockPage.insert, h]

theorem insert_lenWf (bas : Nat) (bp : BlockPage K V) (b : Nat) (k : K) (v : V)
    (hwf : blockLenWf bas bp) : blockLenWf bas (bp.insert b k v).1 := by
  obtain ⟨h1, h2, h3⟩ := hwf
  rw [BlockPage.insert]
  split
  · exact ⟨h1, h2, h3⟩
  · refine ⟨?_, ?_, ?_⟩ <;> simp [List.length_set, h1, h2, h3]

theorem insert_noTombstone (bas : Nat) (bp : BlockPage K V) (b : Nat) (k : K)
    (v : V) (hwf : blockLenWf bas bp) (ht : noTombstone bp) :
    noTombstone (bp.insert b k v).1 := by
  obtain ⟨h1, h2, h3⟩ := hwf
  cases hr : bp.isReadable b with
  | true =>
    have he : bp.insert b k v = (bp, false) := by simp [BlockPage.insert, hr]
    rw [he]
    exact ht
  | false =>
    rw [insert_not_readable_eq bp b k v hr]
    intro i
    by_cases hib : i = b
    · subst hib
      show (bp.occupied.set i true).getD i false = (bp.readable.set i true).getD i false
      rw [getD_set_self, getD_set_self, h1, h2]
    · show (bp.occupied.set b true).getD i false = (bp.readable.set b true).getD i false
      rw [getD_set_ne _ _ _ (fun hh => hib hh.symm),
        getD_set_ne _ _ _ (fun hh => hib hh.symm)]
      exact ht i

theorem entries_insert_iff (bas : Nat) (bp : BlockPage K V) (b : Nat) (k : K)
    (v : V) (hwf : blockLenWf bas bp) (hb : b < bas)
    (hr : bp.isReadable b = false) (p : K × V) :
    p ∈ BlockPage.entries bas (bp.insert b k v).1 ↔
      p ∈ BlockPage.entries bas bp ∨ p = (k, v) := by
  obtain ⟨h1, h2, h3⟩ := hwf
  obtain ⟨p1, p2⟩ := p
  rw [insert_not_readable_eq bp b k v hr]
  rw [mem_entries_iff, mem_entries_iff]
  constructor
  · rintro ⟨b2, hb2, hr2, hk2, hv2⟩
    rw [isReadable_mk] at hr2
    rw [keyAt_mk] at hk2
    rw [valueAt_mk] at hv2
    by_cases hbb : b2 = b
    · subst hbb
      right
      rw [getD_set_self, h3, if_pos hb2] at hk2 hv2
      obtain rfl : p1 = k := hk2.symm
      obtain rfl : p2 = v := hv2.symm
      rfl
    · left
      rw [getD_set_ne _ _ _ (fun hh => hbb hh.symm)] at hr2 hk2 hv2
      exact ⟨b2, hb2, hr2, hk2, hv2⟩
  · rintro (⟨b2, hb2, hr2, hk2, hv2⟩ | hpe)
    · have hbb : b2 ≠ b := fun hh => by rw [hh, hr] at hr2; cases hr2
      refine ⟨b2, hb2, ?_, ?_, ?_⟩
      · rw [isReadable_mk, getD_set_ne _ _ _ (fun hh => hbb hh.symm)]
        exact hr2
      · rw [keyAt_mk, getD_set_ne _ _ _ (fun hh => hbb hh.symm)]
        exact hk2
      · rw [valueAt_mk, getD_set_ne _ _ _ (fun hh => hbb hh.symm)]
        exact hv2
    · refine ⟨b, hb, ?_, ?_, ?_⟩
      · rw [isReadable_mk, getD_set_self, h2, if_pos hb]
      · rw [keyAt_mk, getD_set_self, h3, if_pos hb]
        exact congrArg Prod.fst hpe.symm
      · rw [valueAt_mk, getD_set_self, h3, if_pos hb]
        exact congrArg Prod.snd hpe.symm

theorem mem_htEntries_setBlock_iff (bas ptr : Nat) (ts : LinearProbeHashTable K V)
    (bp2 : BlockPage K V) (q : K × V)
    (hptr : ptr ∈ ts.headerBlocks) (hsome : (alistFind ts.blocks ptr).isSome)
    (hiff : ∀ p : K × V, p ∈ BlockPage.entries bas bp2 ↔
      p ∈ BlockPage.entries bas (ts.getBlock bas ptr) ∨ p = q) (p : K × V) :
    p ∈ htEntries bas (ts.setBlock ptr bp2) ↔ p ∈ htEntries bas ts ∨ p = q := by
  constructor
  · intro hp
    obtain ⟨id, hid, hpe⟩ := mem_htEntries_elim bas _ p hp
    rw [headerBlocks_setBlock] at hid
    by_cases hida : id = ptr
    · subst hida
      rw [getBlock_setBlock_self bas ts id bp2 hsome] at hpe
      rcases (hiff p).mp hpe with hold | hq
      · exact Or.inl (mem_htEntries_of_block bas ts id hid p hold)
      · exact Or.inr hq
    · rw [getBlock_setBlock_ne bas ts id ptr bp2 hida] at hpe
      exact Or.inl (mem_htEntries_of_block bas ts id hid p hpe)
  · rintro (hp | hq)
    · obtain ⟨id, hid, hpe⟩ := mem_htEntries_elim bas ts p hp
      by_cases hida : id = ptr
      · subst hida
        refine mem_htEntries_of_block bas _ id
          (by rw [headerBlocks_setBlock]; exact hid) p ?_
        rw [getBlock_setBlock_self bas ts id bp2 hsome]
        exact (hiff p).mpr (Or.inl hpe)
      · refine mem_htEntries_of_block bas _ id
          (by rw [headerBlocks_setBlock]; exact hid) p ?_
        rw [getBlock_setBlock_ne bas ts id ptr bp2 hida]
        exact hpe
    · refine mem_htEntries_of_block bas _ ptr
        (by rw [headerBlocks_setBlock]; exact hptr) p ?_
      rw [getBlock_setBlock_self bas ts ptr bp2 hsome]
      exact (hiff p).mpr (Or.inr hq)

theorem htInsert_zero_cases (bas : Nat) (hash : K → Nat) (f : Nat)
    (ts ts2 : LinearProbeHashTable K V) (k : K) (v : V) (ok : Bool)
    (h : htInsert bas hash f ts k v = some (ts2, ok, 0)) :
    ∃ b, (insertProbe bas ts.headerBlocks.length (htGetIndex bas hash ts k).1
        (ts.getBlock bas (ts.headerBlocks.getD (htGetIndex bas hash ts k).2.1 0)) k v
        (probeFuel bas ts.headerBlocks.length)
        (htGetIndex bas hash ts k).2.1 (htGetIndex bas hash ts k).2.2
          = ProbeResult.claimed b ∧
        ok = true ∧
        ts2 = ts.setBlock (ts.headerBlocks.getD (htGetIndex bas hash ts k).2.1 0)
          (((ts.getBlock bas
            (ts.headerBlocks.getD (htGetIndex bas hash ts k).2.1 0)).insert b k v).1)) ∨
      (insertProbe bas ts.headerBlocks.length (htGetIndex bas hash ts k).1
        (ts.getBlock bas (ts.headerBlocks.getD (htGetIndex bas hash ts k).2.1 0)) k v
        (probeFuel bas ts.headerBlocks.length)
        (htGetIndex bas hash ts k).2.1 (htGetIndex bas hash ts k).2.2
          = ProbeResult.dup b ∧
        ok = false ∧ ts2 = ts) := by
  cases f with
  | zero => cases h
  | succ g =>
    simp only [htInsert] at h
    split at h
    · rename_i b heq
      simp only [Option.some.injEq, Prod.mk.injEq] at h
      obtain ⟨hts, hok, -⟩ := h
      exact ⟨b, Or.inl ⟨heq, hok.symm, hts.symm⟩⟩
    · rename_i b heq
      simp only [Option.some.injEq, Prod.mk.injEq] at h
      obtain ⟨hts, hok, -⟩ := h
      exact ⟨b, Or.inr ⟨heq, hok.symm, hts.symm⟩⟩
    · cases h
    · split at h
      · cases h
      · split at h
        · cases h
        · simp only [Option.some.injEq, Prod.mk.injEq] at h
          obtain ⟨-, -, hc⟩ := h
          omega

theorem htInsert_mig_step (bas : Nat) (hash : K → Nat) (hdrId : Nat)
    (newIds : List Nat) (numB npid : Nat) (f : Nat)
    (tsm tsm2 : LinearProbeHashTable K V) (k : K) (v : V) (ok : Bool)
    (hbas : 0 < bas) (hnum : 0 < numB) (hlen : numB ≤ newIds.length)
    (hinv : migInv bas hdrId newIds numB npid tsm)
    (h : htInsert bas hash f tsm k v = some (tsm2, ok, 0)) :
    migInv bas hdrId newIds numB npid tsm2 ∧
    (∀ p : K × V, p ∈ htEntries bas tsm2 ↔ p ∈ htEntries bas tsm ∨ p = (k, v)) ∧
    (∀ id, id ∉ newIds → alistFind tsm2.blocks id = alistFind tsm.blocks id) ∧
    tsm2.headers = tsm.headers := by
  obtain ⟨hhp, hhf, hnb, hnp, hblks⟩ := hinv
  have hhdr : tsm.headerBlocks = newIds := by
    rw [LinearProbeHashTable.headerBlocks, hhp, hhf]
    rfl
  have hblkIdx : (htGetIndex bas hash tsm k).2.1 < numB := by
    show hash k % (bas * tsm.numBuckets) / bas < numB
    apply (Nat.div_lt_iff_lt_mul hbas).mpr
    rw [hnb, Nat.mul_comm numB bas]
    exact Nat.mod_lt _ (Nat.mul_pos hbas hnum)
  have hbkt : (htGetIndex bas hash tsm k).2.2 < bas := by
    show hash k % (bas * tsm.numBuckets) / bas % bas < bas
    exact Nat.mod_lt _ hbas
  have hptrlt : (htGetIndex bas hash tsm k).2.1 < tsm.headerBlocks.length := by
    rw [hhdr]
    omega
  have hptrmem : tsm.headerBlocks.getD (htGetIndex bas hash tsm k).2.1 0 ∈
      tsm.headerBlocks := getD_mem _ _ _ hptrlt
  have hptrmemN : tsm.headerBlocks.getD (htGetIndex bas hash tsm k).2.1 0 ∈
      newIds := by
    rw [← hhdr]
    exact hptrmem
  obtain ⟨bpP, hfindP, hlwP, htmP⟩ := hblks _ hptrmemN
  have hsome : (alistFind tsm.blocks
      (tsm.headerBlocks.getD (htGetIndex bas hash tsm k).2.1 0)).isSome = true := by
    rw [hfindP]
    rfl
  have hbp : tsm.getBlock bas
      (tsm.headerBlocks.getD (htGetIndex bas hash tsm k).2.1 0) = bpP := by
    rw [LinearProbeHashTable.getBlock, hfindP]
    rfl
  obtain ⟨b, hcase⟩ := htInsert_zero_cases bas hash f tsm tsm2 k v ok h
  rcases hcase with ⟨hprobe, hok, hts2⟩ | ⟨hprobe, hok, hts2⟩
  · subst hts2
    subst hok
    rw [hbp] at hprobe
    rw [hbp]
    obtain ⟨hrb, hblt⟩ := insertProbe_claimed_spec bas tsm.headerBlocks.length
      (htGetIndex bas hash tsm k).1 bpP k v hbas
      (probeFuel bas tsm.headerBlocks.length) (htGetIndex bas hash tsm k).2.1
      (htGetIndex bas hash tsm k).2.2 hbkt b hprobe
    refine ⟨⟨hhp, hhf, hnb, hnp, ?_⟩, ?_, ?_, rfl⟩
    · intro id hid
      by_cases hidP : id = tsm.headerBlocks.getD (htGetIndex bas hash tsm k).2.1 0
      · subst hidP
        refine ⟨(bpP.insert b k v).1, ?_, insert_lenWf bas bpP b k v hlwP,
          insert_noTombstone bas bpP b k v hlwP htmP⟩
        show alistFind (alistSet tsm.blocks _ _) _ = _
        rw [alistFind_alistSet_self _ _ _ hsome]
      · obtain ⟨bp3, hf3, hl3, ht3⟩ := hblks id hid
        refine ⟨bp3, ?_, hl3, ht3⟩
        show alistFind (alistSet tsm.blocks _ _) id = some bp3
        rw [alistFind_alistSet_ne _ _ _ _ hidP]
        exact hf3
    · intro p
      refine mem_htEntries_setBlock_iff bas
        (tsm.headerBlocks.getD (htGetIndex bas hash tsm k).2.1 0) tsm
        ((bpP.insert b k v).1) (k, v) hptrmem hsome ?_ p
      intro p2
      rw [hbp]
      exact entries_insert_iff bas bpP b k v hlwP hblt hrb p2
    · intro id hid
      show alistFind (alistSet tsm.blocks _ _) id = alistFind tsm.blocks id
      refine alistFind_alistSet_ne _ _ _ _ ?_
      intro hh
      exact hid (by rw [hh]; exact hptrmemN)
  · rw [hts2]
    rw [hbp] at hprobe
    obtain ⟨hrb, hkb, hvb, hblt⟩ := insertProbe_dup_spec bas tsm.headerBlocks.length
      (htGetIndex bas hash tsm k).1 bpP k v hbas
      (probeFuel bas tsm.headerBlocks.length) (htGetIndex bas hash tsm k).2.1
      (htGetIndex bas hash tsm k).2.2 hbkt b hprobe
    have hkv : (k, v) ∈ htEntries bas tsm := by
      refine mem_htEntries_of_block bas tsm
        (tsm.headerBlocks.getD (htGetIndex bas hash tsm k).2.1 0) hptrmem (k, v) ?_
      rw [hbp, mem_entries_iff]
      exact ⟨b, hblt, hrb, hkb, hvb⟩
    refine ⟨⟨hhp, hhf, hnb, hnp, hblks⟩, ?_, fun id _ => rfl, rfl⟩
    intro p
    constructor
    · exact fun hp => Or.inl hp
    · rintro (hp | hp)
      · exact hp
      · rw [hp]
        exact hkv

theorem reinsertSlots_spec (bas : Nat) (hash : K → Nat) (hdrId : Nat)
    (newIds : List Nat) (numB npid : Nat) (bp : BlockPage K V)
    (hbas : 0 < bas) (hnum : 0 < numB) (hlen : numB ≤ newIds.length) :
    ∀ (is : List Nat) (fuel : Nat) (tsm tsm2 : LinearProbeHashTable K V),
    migInv bas hdrId newIds numB npid tsm →
    reinsertSlots bas hash fuel tsm bp is = some (tsm2, 0) →
    migInv bas hdrId newIds numB npid tsm2 ∧
    (∀ p : K × V, p ∈ htEntries bas tsm2 ↔
      p ∈ htEntries bas tsm ∨ p ∈ slotEntries bp is) ∧
    (∀ id, id ∉ newIds → alistFind tsm2.blocks id = alistFind tsm.blocks id) ∧
    tsm2.headers = tsm.headers := by
  intro is
  induction is with
  | nil =>
    intro fuel tsm tsm2 hinv h
    cases fuel with
    | zero => cases h
    | succ g =>
      simp only [reinsertSlots] at h
      simp only [Option.some.injEq, Prod.mk.injEq] at h
      obtain ⟨hts, -⟩ := h
      rw [← hts]
      refine ⟨hinv, ?_, fun id _ => rfl, rfl⟩
      intro p
      constructor
      · exact fun hp => Or.inl hp
      · rintro (hp | hp)
        · exact hp
        · exact absurd hp (List.not_mem_nil p)
  | cons i rest ih =>
    intro fuel tsm tsm2 hinv h
    cases fuel with
    | zero => cases h
    | succ g =>
      simp only [reinsertSlots] at h
      split at h
      · rename_i hri
        split at h
        · cases h
        · rename_i ts1 ok1 c1 heq1
          split at h
          · cases h
          · rename_i ts2m c2 heq2
            simp only [Option.some.injEq, Prod.mk.injEq] at h
            obtain ⟨hts, hc⟩ := h
            have hc1 : c1 = 0 := by omega
            have hc2 : c2 = 0 := by omega
            subst hc1
            subst hc2
            obtain ⟨hinv1, hiff1, hout1, hhdr1⟩ :=
              htInsert_mig_step bas hash hdrId newIds numB npid g tsm ts1
                (bp.keyAt i) (bp.valueAt i) ok1 hbas hnum hlen hinv heq1
            obtain ⟨hinv2, hiff2, hout2, hhdr2⟩ := ih g ts1 ts2m hinv1 heq2
            rw [← hts]
            refine ⟨hinv2, ?_, ?_, hhdr2.trans hhdr1⟩
            · intro p
              rw [hiff2 p, hiff1 p, mem_slotEntries_cons]
              constructor
              · rintro ((hp | hp) | hp)
                · exact Or.inl hp
                · exact Or.inr (Or.inl ⟨hri, hp⟩)
                · exact Or.inr (Or.inr hp)
              · rintro (hp | (⟨-, hp⟩ | hp))
                · exact Or.inl (Or.inl hp)
                · exact Or.inl (Or.inr hp)
                · exact Or.inr hp
            · intro id hid
              rw [hout2 id hid, hout1 id hid]
      · rename_i hri
        obtain ⟨hinv2, hiff2, hout2, hhdr2⟩ := ih g tsm tsm2 hinv h
        refine ⟨hinv2, ?_, hout2, hhdr2⟩
        intro p
        rw [hiff2 p, mem_slotEntries_cons]
        constructor
        · rintro (hp | hp)
          · exact Or.inl hp
          · exact Or.inr (Or.inr hp)
        · rintro (hp | (⟨hrr, hp⟩ | hp))
          · exact Or.inl hp
          · exact absurd hrr hri
          · exact Or.inr hp

theorem reinsertBlocks_spec (bas : Nat) (hash : K → Nat) (hdrId : Nat)
    (newIds : List Nat) (numB npid : Nat)
    (hbas : 0 < bas) (hnum : 0 < numB) (hlen : numB ≤ newIds.length) :
    ∀ (ids : List Nat), ids.Nodup → (∀ id ∈ ids, id ∉ newIds) →
    ∀ (fuel : Nat) (tsm tsm2 : LinearProbeHashTable K V),
    migInv bas hdrId newIds numB npid tsm →
    reinsertBlocks bas hash fuel tsm ids = some (tsm2, 0) →
    migInv bas hdrId newIds numB npid tsm2 ∧
    (∀ p : K × V, p ∈ htEntries bas tsm2 ↔
      p ∈ htEntries bas tsm ∨
        ∃ id ∈ ids, p ∈ BlockPage.entries bas (tsm.getBlock bas id)) ∧
    (∀ id ∈ ids, alistFind tsm2.blocks id = none) ∧
    (∀ id, id ∉ newIds → id ∉ ids →
      alistFind tsm2.blocks id = alistFind tsm.blocks id) ∧
    tsm2.headers = tsm.headers := by
  intro ids
  induction ids with
  | nil =>
    intro hnd hdisj fuel tsm tsm2 hinv h
    cases fuel with
    | zero => cases h
    | succ g =>
      simp only [reinsertBlocks] at h
      simp only [Option.some.injEq, Prod.mk.injEq] at h
      obtain ⟨hts, -⟩ := h
      rw [← hts]
      refine ⟨hinv, ?_, ?_, fun id _ _ => rfl, rfl⟩
      · intro p
        constructor
        · exact fun hp => Or.inl hp
        · rintro (hp | ⟨id, hid, -⟩)
          · exact hp
          · exact absurd hid (List.not_mem_nil id)
      · intro id hid
        exact absurd hid (List.not_mem_nil id)
  | cons id rest ih =>
    intro hnd hdisj fuel tsm tsm2 hinv h
    cases fuel with
    | zero => cases h
    | succ g =>
      simp only [reinsertBlocks] at h
      split at h
      · cases h
      · rename_i ts1 c1 heq1
        split at h
        · cases h
        · rename_i ts2m c2 heq2
          simp only [Option.some.injEq, Prod.mk.injEq] at h
          obtain ⟨hts, hc⟩ := h
          have hc1 : c1 = 0 := by omega
          have hc2 : c2 = 0 := by omega
          subst hc1
          subst hc2
          have hidN : id ∉ newIds := hdisj id (List.mem_cons_self id rest)
          have hidR : id ∉ rest := (List.nodup_cons.mp hnd).1
          have hndR : rest.Nodup := (List.nodup_cons.mp hnd).2
          have hdisjR : ∀ i2 ∈ rest, i2 ∉ newIds :=
            fun i2 hi2 => hdisj i2 (List.mem_cons_of_mem id hi2)
          obtain ⟨hinv1, hiff1, hout1, hhdr1⟩ := reinsertSlots_spec bas hash hdrId
            newIds numB npid (tsm.getBlock bas id) hbas hnum hlen
            (List.range bas) g tsm ts1 hinv heq1
          have hinvD : migInv bas hdrId newIds numB npid (ts1.deleteBlock id) := by
            obtain ⟨hh1, hh2, hh3, hh4, hh5⟩ := hinv1
            refine ⟨hh1, hh2, hh3, hh4, ?_⟩
            intro id2 hid2
            obtain ⟨bp2, hf2, hl2, ht2⟩ := hh5 id2 hid2
            refine ⟨bp2, ?_, hl2, ht2⟩
            show alistFind (alistErase ts1.blocks id) id2 = some bp2
            rw [alistFind_alistErase_ne _ _ _ (fun hh => hidN (by rw [← hh]; exact hid2))]
            exact hf2
          obtain ⟨hinv2, hiff2, hdel2, hout2, hhdr2⟩ := ih hndR hdisjR g
            (ts1.deleteBlock id) ts2m hinvD heq2
          have hhdrB : ts1.headerBlocks = newIds := by
            obtain ⟨hh1, hh2, _, _, _⟩ := hinv1
            rw [LinearProbeHashTable.headerBlocks, hh1, hh2]
            rfl
          have hED : htEntries bas (ts1.deleteBlock id) = htEntries bas ts1 := by
            refine htEntries_congr bas ts1 (ts1.deleteBlock id) rfl ?_
            intro id2 hid2
            have hid2N : id2 ∈ newIds := by
              rw [← hhdrB]
              exact hid2
            exact getBlock_deleteBlock_ne bas ts1 id2 id
              (fun hh => hidN (by rw [← hh]; exact hid2N))
          rw [← hts]
          refine ⟨hinv2, ?_, ?_, ?_, hhdr2.trans hhdr1⟩
          · intro p
            rw [hiff2 p, hED, hiff1 p, ← entries_eq_slotEntries]
            constructor
            · rintro ((hp | hp) | ⟨i2, hi2, hp⟩)
              · exact Or.inl hp
              · exact Or.inr ⟨id, List.mem_cons_self id rest, hp⟩
              · refine Or.inr ⟨i2, List.mem_cons_of_mem id hi2, ?_⟩
                rw [getBlock_deleteBlock_ne bas ts1 i2 id
                  (fun hh => hidR (by rw [← hh]; exact hi2))] at hp
                rw [getBlock_eq_of_find_eq bas tsm ts1 i2
                  (hout1 i2 (hdisjR i2 hi2))] at hp
                exact hp
            · rintro (hp | ⟨i2, hi2, hp⟩)
              · exact Or.inl (Or.inl hp)
              · rcases List.mem_cons.mp hi2 with rfl | hi2r
                · exact Or.inl (Or.inr hp)
                · refine Or.inr ⟨i2, hi2r, ?_⟩
                  rw [getBlock_deleteBlock_ne bas ts1 i2 id
                    (fun hh => hidR (by rw [← hh]; exact hi2r))]
                  rw [getBlock_eq_of_find_eq bas tsm ts1 i2
                    (hout1 i2 (hdisjR i2 hi2r))]
                  exact hp
          · intro id2 hid2
            rcases List.mem_cons.mp hid2 with rfl | hid2r
            · rw [hout2 id2 hidN hidR]
              show alistFind (alistErase ts1.blocks id2) id2 = none
              exact alistFind_alistErase_self ts1.blocks id2
            · exact hdel2 id2 hid2r
          · intro id2 hN hR
            have hR1 : id2 ≠ id :=
              fun hh => hR (by rw [hh]; exact List.mem_cons_self id rest)
            have hR2 : id2 ∉ rest := fun hh => hR (List.mem_cons_of_mem id hh)
            rw [hout2 id2 hN hR2]
            show alistFind (alistErase ts1.blocks id) id2 = alistFind tsm.blocks id2
            rw [alistFind_alistErase_ne _ _ _ hR1]
            exact hout1 id2 hN

/-- Claim C4, counterexample: in table `c4T3` the exact pair (2, 2) is
already a readable entry, yet `Insert (2, 2)` claims the tombstone left at
bucket 0 by `Remove (1, 1)` and returns true — the pair is now stored
twice — contradicting "insert(key, value) returns false if and only if the
exact (key, value) pair is already present as a readable entry". -/
theorem c4_counterexample :
    (2, 2) ∈ htEntries 2 c4T3 ∧
    htInsert 2 hashZero 10 c4T3 2 2 = some (c4T4, true, 0) ∧
    (htEntries 2 c4T4).count (2, 2) = 2 := by decide

/-- Claim C4 (amended): for an `Insert` run that finishes without
triggering a resize (count 0), a false return implies the exact pair was
already present as a readable entry and the table is unchanged, and a true
return implies the pair is a readable entry of the resulting table.  The
converse of the false case — the claim's "if and only if" — is refuted by
`c4_counterexample`: a tombstone can make `Insert` of an already-present
pair claim a slot and return true. -/
theorem c4_insert_characterization (bas : Nat) (hash : K → Nat) (fuel : Nat)
    (ts ts2 : LinearProbeHashTable K V) (k : K) (v : V) (ok : Bool)
    (hbas : 0 < bas) (hwf : tableWf bas ts)
    (hblk : (htGetIndex bas hash ts k).2.1 < ts.headerBlocks.length)
    (h : htInsert bas hash fuel ts k v = some (ts2, ok, 0)) :
    (ok = false → ts2 = ts ∧ (k, v) ∈ htEntries bas ts) ∧
    (ok = true → (k, v) ∈ htEntries bas ts2) := by
  have hbkt : (htGetIndex bas hash ts k).2.2 < bas := by
    show hash k % (bas * ts.numBuckets) / bas % bas < bas
    exact Nat.mod_lt _ hbas
  have hptrmem : ts.headerBlocks.getD (htGetIndex bas hash ts k).2.1 0 ∈
      ts.headerBlocks := getD_mem _ _ _ hblk
  have hsomeP := hwf.1 _ hptrmem
  have hlwP : blockLenWf bas (ts.getBlock bas
      (ts.headerBlocks.getD (htGetIndex bas hash ts k).2.1 0)) :=
    getBlock_lenWf bas ts _ hwf.2
  obtain ⟨b, hcase⟩ := htInsert_zero_cases bas hash fuel ts ts2 k v ok h
  rcases hcase with ⟨hprobe, hok, hts2⟩ | ⟨hprobe, hok, hts2⟩
  · subst hok
    subst hts2
    obtain ⟨hrb, hblt⟩ := insertProbe_claimed_spec bas ts.headerBlocks.length
      (htGetIndex bas hash ts k).1 _ k v hbas
      (probeFuel bas ts.headerBlocks.length) (htGetIndex bas hash ts k).2.1
      (htGetIndex bas hash ts k).2.2 hbkt b hprobe
    constructor
    · intro hff
      exact absurd hff (by decide)
    · intro _
      refine (mem_htEntries_setBlock_iff bas
        (ts.headerBlocks.getD (htGetIndex bas hash ts k).2.1 0) ts
        _ (k, v) hptrmem hsomeP ?_ (k, v)).mpr (Or.inr rfl)
      intro p2
      exact entries_insert_iff bas _ b k v hlwP hblt hrb p2
  · subst hok
    rw [hts2]
    obtain ⟨hrb, hkb, hvb, hblt⟩ := insertProbe_dup_spec bas ts.headerBlocks.length
      (htGetIndex bas hash ts k).1 _ k v hbas
      (probeFuel bas ts.headerBlocks.length) (htGetIndex bas hash ts k).2.1
      (htGetIndex bas hash ts k).2.2 hbkt b hprobe
    constructor
    · intro _
      refine ⟨rfl, ?_⟩
      refine mem_htEntries_of_block bas ts
        (ts.headerBlocks.getD (htGetIndex bas hash ts k).2.1 0) hptrmem (k, v) ?_
      rw [mem_entries_iff]
      exact ⟨b, hblt, hrb, hkb, hvb⟩
    · intro htt
      exact absurd htt (by decide)

/-- Claim C4 (amended), witness: the first insert into a fresh one-block
table returns true and makes (1, 1) a readable entry. -/
theorem c4_insert_characterization_witness :
    (true = false → c4T1 = mkTable Nat Nat 2 1 ∧
      (1, 1) ∈ htEntries 2 (mkTable Nat Nat 2 1)) ∧
    (true = true → (1, 1) ∈ htEntries 2 c4T1) :=
  c4_insert_characterization 2 hashZero 10 (mkTable Nat Nat 2 1) c4T1 1 1 true
    (by decide) (by unfold tableWf blockLenWf; decide) (by decide) (by decide)

/-- Claim C5, counterexample: table `c4T4` holds the readable pair (2, 2)
twice (see `c4_counterexample`); `Resize` re-inserts through `Insert`,
which drops the second copy as a duplicate, so the multiset of readable
entries after the resize is NOT equal to the multiset before. -/
theorem c5_counterexample :
    (htEntries 2 c4T4).count (2, 2) = 2 ∧
    htResize 2 hashZero 20 c4T4 (htGetSize 2 c4T4) = some (c5After, 0) ∧
    htEntries 2 c5After = [(2, 2)] ∧
    ¬ (htEntries 2 c5After).Perm (htEntries 2 c4T4) := by decide

/-- Claim C5 (amended): for a `Resize` run whose re-insertions trigger no
nested resize (count 0), on a well-formed table whose stale `num_buckets`
member still fits the doubled block count: the total slot capacity doubles,
the SET of readable (key, value) entries is preserved (the multiset claim
is refuted by `c5_counterexample`), no new block carries a tombstone, and
the old header page and all old block pages are deleted. -/
theorem c5_resize_characterization (bas : Nat) (hash : K → Nat) (fuel : Nat)
    (ts ts2 : LinearProbeHashTable K V)
    (hbas : 0 < bas) (hnum0 : 0 < ts.numBuckets)
    (hnum : ts.numBuckets ≤ 2 * ts.headerBlocks.length)
    (hwf : tableWf bas ts) (hnodup : ts.headerBlocks.Nodup)
    (hhid : ts.headerPageId < ts.nextPageId)
    (hhk : ∀ q ∈ ts.headers, q.1 < ts.nextPageId)
    (hbk : ∀ q ∈ ts.blocks, q.1 < ts.nextPageId)
    (h : htResize bas hash (fuel + 1) ts (htGetSize bas ts) = some (ts2, 0)) :
    htGetSize bas ts2 = 2 * htGetSize bas ts ∧
    (∀ p : K × V, p ∈ htEntries bas ts2 ↔ p ∈ htEntries bas ts) ∧
    (∀ id ∈ ts2.headerBlocks, noTombstone (ts2.getBlock bas id)) ∧
    alistFind ts2.headers ts.headerPageId = none ∧
    (∀ id ∈ ts.headerBlocks, alistFind ts2.blocks id = none) := by
  obtain ⟨hwf1, hwf2⟩ := hwf
  have hnbv : 2 * htGetSize bas ts / bas = 2 * ts.headerBlocks.length := by
    rw [htGetSize, ← Nat.mul_assoc, Nat.mul_div_cancel _ hbas]
  have hhbN : ∀ id ∈ ts.headerBlocks, id < ts.nextPageId := by
    intro id hid
    have hs := hwf1 id hid
    cases hf : alistFind ts.blocks id with
    | none => rw [hf] at hs; cases hs
    | some bp => exact hbk (id, bp) (alistFind_eq_some_mem hf)
  simp only [htResize] at h
  split at h
  · cases h
  · rename_i ts2m c heq
    simp only [Option.some.injEq, Prod.mk.injEq] at h
    obtain ⟨hts, hc⟩ := h
    subst hc
    set nb := 2 * htGetSize bas ts / bas with hnbdef
    set newIds := (List.range nb).map (fun i => ts.nextPageId + 1 + i)
      with hnewIdsdef
    set ts1 : LinearProbeHashTable K V :=
      { ts with headerPageId := ts.nextPageId
                headers := ts.headers ++ [(ts.nextPageId, newIds)]
                blocks := ts.blocks ++ freshBlocks K V bas (ts.nextPageId + 1) nb
                nextPageId := ts.nextPageId + 1 + nb } with hts1def
    have hdisj : ∀ id ∈ ts.headerBlocks, id ∉ newIds := by
      intro id hid hmem
      rw [hnewIdsdef] at hmem
      obtain ⟨i, -, hieq⟩ := List.mem_map.mp hmem
      have := hhbN id hid
      omega
    have hfindHdr : alistFind (ts.headers ++ [(ts.nextPageId, newIds)])
        ts.nextPageId = some newIds := by
      rw [alistFind_append,
        alistFind_eq_none_keys ts.headers ts.nextPageId
          (fun q hq => Nat.ne_of_lt (hhk q hq))]
      show alistFind [(ts.nextPageId, newIds)] ts.nextPageId = some newIds
      rw [alistFind, if_pos rfl]
    have hfindNew : ∀ id ∈ newIds,
        alistFind (ts.blocks ++ freshBlocks K V bas (ts.nextPageId + 1) nb) id =
          some (BlockPage.reset K V bas) := by
      intro id hid
      rw [hnewIdsdef] at hid
      obtain ⟨i, hiR, hieq⟩ := List.mem_map.mp hid
      rw [List.mem_range] at hiR
      rw [alistFind_append,
        alistFind_eq_none_keys ts.blocks id (fun q hq => by have := hbk q hq; omega)]
      show alistFind (freshBlocks K V bas (ts.nextPageId + 1) nb) id =
        some (BlockPage.reset K V bas)
      rw [alistFind_freshBlocks, if_pos (by omega)]
    have hinv1 : migInv bas ts.nextPageId newIds ts.numBuckets
        (ts.nextPageId + 1 + nb) ts1 := by
      refine ⟨rfl, ?_, rfl, rfl, ?_⟩
      · show alistFind (ts.headers ++ [(ts.nextPageId, newIds)]) ts.nextPageId =
          some newIds
        exact hfindHdr
      · intro id hid
        refine ⟨BlockPage.reset K V bas, ?_, ?_, ?_⟩
        · show alistFind (ts.blocks ++ freshBlocks K V bas (ts.nextPageId + 1) nb)
            id = some (BlockPage.reset K V bas)
          exact hfindNew id hid
        · refine ⟨?_, ?_, ?_⟩ <;> simp [BlockPage.reset]
        · intro i2
          rfl
    obtain ⟨hinv2, hiff2, hdel2, hout2, hhdr2⟩ := reinsertBlocks_spec bas hash
      ts.nextPageId newIds ts.numBuckets (ts.nextPageId + 1 + nb)
      hbas hnum0
      (by rw [hnewIdsdef, List.length_map, List.length_range, hnbv]
          exact hnum)
      ts.headerBlocks hnodup hdisj fuel ts1 ts2m hinv1 heq
    have hhdr1 : ts1.headerBlocks = newIds := by
      rw [LinearProbeHashTable.headerBlocks]
      show (alistFind (ts.headers ++ [(ts.nextPageId, newIds)]) ts.nextPageId).getD
        [] = newIds
      rw [hfindHdr]
      rfl
    have hE1 : ∀ p2 : K × V, p2 ∉ htEntries bas ts1 := by
      intro p2 hp2
      obtain ⟨id2, hid2, hpe⟩ := mem_htEntries_elim bas ts1 p2 hp2
      have hid2N : id2 ∈ newIds := by
        rw [← hhdr1]
        exact hid2
      have hgb : ts1.getBlock bas id2 = BlockPage.reset K V bas := by
        rw [LinearProbeHashTable.getBlock]
        show (alistFind (ts.blocks ++ freshBlocks K V bas (ts.nextPageId + 1) nb)
          id2).getD (BlockPage.reset K V bas) = BlockPage.reset K V bas
        rw [hfindNew id2 hid2N]
        rfl
      rw [hgb, entries_reset] at hpe
      exact absurd hpe (List.not_mem_nil p2)
    have hgbOld : ∀ id ∈ ts.headerBlocks,
        ts1.getBlock bas id = ts.getBlock bas id := by
      intro id hid
      refine getBlock_eq_of_find_eq bas ts ts1 id ?_
      show alistFind (ts.blocks ++ freshBlocks K V bas (ts.nextPageId + 1) nb) id =
        alistFind ts.blocks id
      rw [alistFind_append]
      cases hf : alistFind ts.blocks id with
      | some bp => rfl
      | none =>
        have hs := hwf1 id hid
        rw [hf] at hs
        cases hs
    have hhdrF : ({ ts2m with headers := alistErase ts2m.headers ts.headerPageId } :
        LinearProbeHashTable K V).headerBlocks = newIds := by
      rw [LinearProbeHashTable.headerBlocks]
      show (alistFind (alistErase ts2m.headers ts.headerPageId)
        ts2m.headerPageId).getD [] = newIds
      rw [hinv2.1, alistFind_alistErase_ne _ _ _ (Nat.ne_of_gt hhid), hinv2.2.1]
      rfl
    have hcongr : htEntries bas
        ({ ts2m with headers := alistErase ts2m.headers ts.headerPageId } :
          LinearProbeHashTable K V) = htEntries bas ts2m := by
      refine htEntries_congr bas ts2m _ ?_ (fun id2 _ => rfl)
      rw [hhdrF, LinearProbeHashTable.headerBlocks, hinv2.1, hinv2.2.1]
      rfl
    rw [← hts]
    refine ⟨?_, ?_, ?_, ?_, ?_⟩
    · show ({ ts2m with headers := alistErase ts2m.headers ts.headerPageId } :
        LinearProbeHashTable K V).headerBlocks.length * bas = 2 * htGetSize bas ts
      rw [hhdrF, hnewIdsdef, List.length_map, List.length_range, hnbv,
        htGetSize, Nat.mul_assoc]
    · intro p
      rw [hcongr, hiff2 p]
      constructor
      · rintro (hp | ⟨id2, hid2, hp⟩)
        · exact absurd hp (hE1 p)
        · rw [hgbOld id2 hid2] at hp
          exact mem_htEntries_of_block bas ts id2 hid2 p hp
      · intro hp
        obtain ⟨id2, hid2, hpe⟩ := mem_htEntries_elim bas ts p hp
        refine Or.inr ⟨id2, hid2, ?_⟩
        rw [hgbOld id2 hid2]
        exact hpe
    · intro id2 hid2
      rw [hhdrF] at hid2
      obtain ⟨bp2, hf2, hl2, ht2⟩ := hinv2.2.2.2.2 id2 hid2
      have hgb2 : ({ ts2m with headers := alistErase ts2m.headers ts.headerPageId } :
          LinearProbeHashTable K V).getBlock bas id2 = bp2 := by
        rw [LinearProbeHashTable.getBlock]
        show (alistFind ts2m.blocks id2).getD (BlockPage.reset K V bas) = bp2
        rw [hf2]
        rfl
      rw [hgb2]
      exact ht2
    · show alistFind (alistErase ts2m.headers ts.headerPageId) ts.headerPageId = none
      exact alistFind_alistErase_self _ _
    · intro id2 hid2
      show alistFind ts2m.blocks id2 = none
      exact hdel2 id2 hid2

/-- Claim C5 (amended), witness: resizing the two-slot table `c4T4` doubles
its capacity, preserves its entry set \x7b(2, 2)\x7d, leaves no tombstone, and
deletes the old header page 0 and old block page 1. -/
theorem c5_resize_characterization_witness :
    htGetSize 2 c5After = 2 * htGetSize 2 c4T4 ∧
    (∀ p : Nat × Nat, p ∈ htEntries 2 c5After ↔ p ∈ htEntries 2 c4T4) ∧
    (∀ id ∈ c5After.headerBlocks, noTombstone (c5After.getBlock 2 id)) ∧
    alistFind c5After.headers c4T4.headerPageId = none ∧
    (∀ id ∈ c4T4.headerBlocks, alistFind c5After.blocks id = none) :=
  c5_resize_characterization 2 hashZero 19 c4T4 c5After (by decide) (by decide)
    (by decide) (by unfold tableWf blockLenWf; decide) (by decide) (by decide)
    (by decide) (by decide) (by decide)

end CMU15445
